import Mathlib

/-!
Verification of the cleverleben-scrapy repository: a shallow embedding of the
post-processing script `clean_and_flatten_output.py`, the relevant handlers of
`clever_spider.py`, and the data they operate on, together with theorems that
settle the frozen specification claims.

JSON values are modelled by the inductive type `JVal`; Python dictionaries are
modelled by association lists with distinct keys (as produced by `json.loads`),
and lookups return the first matching key.  Python `==` on JSON values is the
structural equality `jeq`.  Machine floats are modelled by rational numbers:
every fact proved here about `float`-handling code concerns either parse
failure or values exactly representable with two decimal digits, where the
binary double and the exact rational agree.  Such a rational is carried as a
numerator/denominator pair of naturals with the denominator a power of ten.
-/

set_option maxRecDepth 8000

/-- Characters accepted by Python's `str.strip()` and matched by `\s` in a
`re` pattern over `str`: ASCII whitespace, the C1 separators, NBSP and the
Unicode space code points. -/
def isPySpace (c : Char) : Bool :=
  c = ' ' || c = '\t' || c = '\n' || c.val = 0x0d || c.val = 0x0b || c.val = 0x0c ||
  (0x1c ≤ c.val && c.val ≤ 0x1f) || c.val = 0x85 || c.val = 0xa0 || c.val = 0x1680 ||
  (0x2000 ≤ c.val && c.val ≤ 0x200a) || c.val = 0x2028 || c.val = 0x2029 ||
  c.val = 0x202f || c.val = 0x205f || c.val = 0x3000

/-- ASCII digit test, modelling `\d` on the inputs this program handles. -/
def isDigitC (c : Char) : Bool := '0' ≤ c && c ≤ '9'

/-- Value of a string of decimal digits, modelling Python's `int` on digit
strings (so `int("007") = 7`). -/
def digitsToNat (l : List Char) : Nat :=
  l.foldl (fun n c => n * 10 + (c.toNat - '0'.toNat)) 0

/-- Strip a run of the characters selected by `p` from both ends of a list. -/
def stripBy (p : Char → Bool) (l : List Char) : List Char :=
  ((l.dropWhile p).reverse.dropWhile p).reverse

/-- Python `str.strip()` with no argument: remove surrounding whitespace. -/
def pyStripStr (s : String) : String := (stripBy isPySpace s.toList).asString

/-- Python `str.strip(q)` for a single-character argument `q`. -/
def stripCharStr (q : Char) (s : String) : String :=
  (stripBy (fun c => c = q) s.toList).asString

/-- Replace every occurrence of U+00A0 with a plain space, modelling
`s.replace(" ", " ")`. -/
def replNbspStr (s : String) : String :=
  (s.toList.map (fun c => if c.val = 0xa0 then ' ' else c)).asString

/-- Collapse every maximal run of whitespace into a single space, modelling
`re.sub(r"\s+", " ", s)` on a character list. -/
def collapseWs : List Char → List Char
  | [] => []
  | [c] => [if isPySpace c then ' ' else c]
  | c :: d :: t =>
    if isPySpace c && isPySpace d then collapseWs (d :: t)
    else (if isPySpace c then ' ' else c) :: collapseWs (d :: t)

/-- The post-processor's `clean_text` on a value that is already a string:
replace NBSP by space, strip, then collapse inner whitespace runs. -/
def cleanTextStr (s : String) : String :=
  (collapseWs (stripBy isPySpace (replNbspStr s).toList)).asString

/-- The spider's `_clean_text` on a string: collapse whitespace runs first,
then strip the ends (`re.sub(r'\s+', ' ', txt).strip()`). -/
def spCleanStr (s : String) : String :=
  (stripBy isPySpace (collapseWs s.toList)).asString

/-- Substring test on character lists, modelling Python's `needle in hay`. -/
def hasSubL (pat : List Char) : List Char → Bool
  | [] => pat.isEmpty
  | c :: t => pat.isPrefixOf (c :: t) || hasSubL pat t

/-- Python's `pat in hay` on strings. -/
def containsSubStr (hay pat : String) : Bool := hasSubL pat.toList hay.toList

/-- JSON values as loaded by `json.loads` (numbers restricted to integers;
no input handled by a claim carries a fractional JSON literal). -/
inductive JVal where
  | null : JVal
  | bool : Bool → JVal
  | num : Int → JVal
  | str : String → JVal
  | list : List JVal → JVal
  | dict : List (String × JVal) → JVal

mutual

/-- Python `==` on JSON values: structural equality. -/
def jeq : JVal → JVal → Bool
  | .null, .null => true
  | .bool a, .bool b => a == b
  | .num a, .num b => a == b
  | .str a, .str b => a == b
  | .list a, .list b => jeqL a b
  | .dict a, .dict b => jeqD a b
  | _, _ => false

/-- Element-wise `jeq` on JSON arrays. -/
def jeqL : List JVal → List JVal → Bool
  | [], [] => true
  | a :: t, b :: u => jeq a b && jeqL t u
  | _, _ => false

/-- Entry-wise `jeq` on JSON objects. -/
def jeqD : List (String × JVal) → List (String × JVal) → Bool
  | [], [] => true
  | (k, a) :: t, (k2, b) :: u => k == k2 && jeq a b && jeqD t u
  | _, _ => false

end

/-- Python `x in xs` over a list of JSON values (membership up to `==`). -/
def jmem (x : JVal) : List JVal → Bool
  | [] => false
  | y :: t => jeq x y || jmem x t

/-- Python truthiness of a JSON value: `None`, `False`, `0`, `""`, `[]` and
`{}` are falsy, everything else truthy. -/
def truthy : JVal → Bool
  | .null => false
  | .bool b => b
  | .num n => n != 0
  | .str s => s != ""
  | .list l => !l.isEmpty
  | .dict l => !l.isEmpty

/-- Python's `a or b`: `a` when truthy, otherwise `b`. -/
def pyOr (a b : JVal) : JVal := if truthy a then a else b

/-- Python's `d.get(k)` on a dict modelled as an association list: the value
at the first matching key, `None` when absent. -/
def jget (fs : List (String × JVal)) (k : String) : JVal :=
  (List.lookup k fs).getD .null

/-- Python's `k in d` membership test on a dict. -/
def jhas (fs : List (String × JVal)) (k : String) : Bool :=
  (List.lookup k fs).isSome

/-- Quote and escape a string the way `repr` renders it inside `str(value)`
for a composite value (single quotes; backslash and quote escaped). -/
def pyQuote (s : String) : String :=
  "'" ++ String.join (s.toList.map (fun c =>
    if c = '\\' then "\\\\" else if c = '\'' then "\\'" else String.singleton c)) ++ "'"

mutual

/-- Python `repr` of a JSON value, as used by `str()` on composite values. -/
def pyRepr : JVal → String
  | .null => "None"
  | .bool true => "True"
  | .bool false => "False"
  | .num n => toString n
  | .str s => pyQuote s
  | .list l => "[" ++ pyReprL l ++ "]"
  | .dict l => "\x7b" ++ pyReprD l ++ "\x7d"

/-- Comma-joined `repr`s of the elements of an array. -/
def pyReprL : List JVal → String
  | [] => ""
  | [v] => pyRepr v
  | v :: w :: t => pyRepr v ++ ", " ++ pyReprL (w :: t)

/-- Comma-joined `repr`s of the entries of an object. -/
def pyReprD : List (String × JVal) → String
  | [] => ""
  | [(k, v)] => pyQuote k ++ ": " ++ pyRepr v
  | (k, v) :: e :: t => pyQuote k ++ ": " ++ pyRepr v ++ ", " ++ pyReprD (e :: t)

end

/-- Python's `str(value)`: the string itself for strings, `repr`-style
rendering otherwise. -/
def pyStr : JVal → String
  | .str s => s
  | v => pyRepr v

/-- Escape a character for a JSON string literal (`json.dumps` with
`ensure_ascii=False`). -/
def jsonEscapeChar (c : Char) : String :=
  if c = '"' then "\\\"" else if c = '\\' then "\\\\"
  else if c = '\n' then "\\n" else if c = '\t' then "\\t"
  else if c.val = 0x0d then "\\r" else String.singleton c

/-- JSON string literal for `json.dumps`. -/
def jsonQuote (s : String) : String :=
  "\"" ++ String.join (s.toList.map jsonEscapeChar) ++ "\""

mutual

/-- Python's `json.dumps(value, ensure_ascii=False)` with default separators. -/
def jsonDumps : JVal → String
  | .null => "null"
  | .bool true => "true"
  | .bool false => "false"
  | .num n => toString n
  | .str s => jsonQuote s
  | .list l => "[" ++ jsonDumpsL l ++ "]"
  | .dict l => "\x7b" ++ jsonDumpsD l ++ "\x7d"

/-- Comma-joined serializations of the elements of an array. -/
def jsonDumpsL : List JVal → String
  | [] => ""
  | [v] => jsonDumps v
  | v :: w :: t => jsonDumps v ++ ", " ++ jsonDumpsL (w :: t)

/-- Comma-joined serializations of the entries of an object. -/
def jsonDumpsD : List (String × JVal) → String
  | [] => ""
  | [(k, v)] => jsonQuote k ++ ": " ++ jsonDumps v
  | (k, v) :: e :: t => jsonQuote k ++ ": " ++ jsonDumps v ++ ", " ++ jsonDumpsD (e :: t)

end

/-- Characters allowed in the body of a match of
`URL_RE = https?://[^\s\"',;]+` (everything but whitespace, quote characters,
comma and semicolon). -/
def urlBodyChar (c : Char) : Bool :=
  !(isPySpace c || c = '"' || c = '\'' || c = ',' || c = ';')

/-- Attempt to match `URL_RE` (with `re.IGNORECASE`) at the head of the list:
`http`, optional `s`, `://`, then a non-empty run of body characters. -/
def matchUrlAt (l : List Char) : Option (List Char) :=
  match l with
  | a :: b :: c :: d :: rest =>
    if a.toLower = 'h' && b.toLower = 't' && c.toLower = 't' && d.toLower = 'p' then
      let sr : List Char × List Char :=
        match rest with
        | e :: r2 => if e.toLower = 's' then ([e], r2) else ([], e :: r2)
        | [] => ([], [])
      match sr.2 with
      | x :: y :: z :: r3 =>
        if x = ':' && y = '/' && z = '/' then
          let body := r3.takeWhile urlBodyChar
          if body.isEmpty then none
          else some (a :: b :: c :: d :: (sr.1 ++ x :: y :: z :: body))
        else none
      | _ => none
    else none
  | _ => none

/-- Scan for all non-overlapping leftmost matches of `URL_RE`
(`URL_RE.findall`).  The fuel argument is the length of the scanned list; every
step consumes at least one character, so the fuel never runs out. -/
def urlFindAux : Nat → List Char → List String
  | 0, _ => []
  | _ + 1, [] => []
  | fuel + 1, c :: t =>
    match matchUrlAt (c :: t) with
    | some m => m.asString :: urlFindAux fuel (t.drop (m.length - 1))
    | none => urlFindAux fuel t

/-- `URL_RE.findall(s)`. -/
def urlFindAll (s : String) : List String := urlFindAux s.toList.length s.toList

/-- `URL_RE.search(s)`, returning the whole matched text. -/
def urlSearch (s : String) : Option String := (urlFindAll s).head?

/-- `re.split(r'[;,]\s*', s)`: split at every comma or semicolon, consuming
the following whitespace run; fuel as in `urlFindAux`. -/
def splitSepAux : Nat → List Char → List Char → List (List Char)
  | 0, cur, _ => [cur.reverse]
  | _ + 1, cur, [] => [cur.reverse]
  | fuel + 1, cur, c :: t =>
    if c = ';' || c = ',' then cur.reverse :: splitSepAux fuel [] (t.dropWhile isPySpace)
    else splitSepAux fuel (c :: cur) t

/-- `re.split(r'[;,]\s*', s)` as a list of strings. -/
def splitSepParts (s : String) : List String :=
  (splitSepAux s.toList.length [] s.toList).map List.asString

/-- Strip whitespace, then `"`, then `'` from both ends
(`p.strip().strip('"').strip("'")`). -/
def stripPartStr (p : String) : String :=
  stripCharStr '\'' (stripCharStr '"' (pyStripStr p))

/-- `extract_urls_from_string`: all `URL_RE` matches, else the `URL_RE.search`
hits of the comma/semicolon-separated pieces. -/
def extract_urls_from_string (s : String) : List String :=
  if s = "" then []
  else
    let found := urlFindAll s
    if !found.isEmpty then found
    else
      (splitSepParts s).foldl (fun out p =>
        match urlSearch (stripPartStr p) with
        | some m => out ++ [m]
        | none => out) []

/-- The `for u in urls` loop of the list and string branches of
`flatten_images_field`: strip each URL, then append it when non-empty and not
yet seen. -/
def addUrlsStrip : List String → List String → List String → List String × List String
  | seen, out, [] => (seen, out)
  | seen, out, u :: us =>
    let uu := pyStripStr u
    if uu != "" && !seen.contains uu then addUrlsStrip (uu :: seen) (out ++ [uu]) us
    else addUrlsStrip seen out us

/-- The `for u in urls` loop of the dict branch of `flatten_images_field`:
append each URL not yet seen (no strip, no emptiness test). -/
def addUrlsDict : List String → List String → List String → List String × List String
  | seen, out, [] => (seen, out)
  | seen, out, u :: us =>
    if !seen.contains u then addUrlsDict (u :: seen) (out ++ [u]) us
    else addUrlsDict seen out us

/-- The fallback of the string branch of `flatten_images_field`: split on
commas/semicolons and keep stripped pieces that literally start with `http`. -/
def addHttpParts : List String → List String → List String → List String × List String
  | seen, out, [] => (seen, out)
  | seen, out, p :: ps =>
    let p2 := stripPartStr p
    if p2.startsWith "http" && !seen.contains p2 then addHttpParts (p2 :: seen) (out ++ [p2]) ps
    else addHttpParts seen out ps

/-- The string branch of `flatten_images_field`: deduplicate the extracted
URLs; when none survive, fall back to comma/semicolon-delimited pieces that
start with `http`. -/
def flattenStr (s : String) : List String :=
  let so := addUrlsStrip [] [] (extract_urls_from_string s)
  if so.2.isEmpty then (addHttpParts so.1 so.2 (splitSepParts s)).2
  else so.2

/-- The `for v in value` loop of the list branch of `flatten_images_field`:
composite elements are serialized with `json.dumps`, scalars with `str`, and
the URLs found are deduplicated across the whole list. -/
def flattenListElems : List String → List String → List JVal → List String × List String
  | seen, out, [] => (seen, out)
  | seen, out, v :: vs =>
    if !truthy v then flattenListElems seen out vs
    else
      let urls :=
        match v with
        | .list _ => extract_urls_from_string (jsonDumps v)
        | .dict _ => extract_urls_from_string (jsonDumps v)
        | _ => extract_urls_from_string (pyStr v)
      let so := addUrlsStrip seen out urls
      flattenListElems so.1 so.2 vs

mutual

/-- `flatten_images_field`: reduce any nested combination of lists, dicts and
strings to a flat, order-preserving, deduplicated list of URL strings.  Falsy
values yield `[]`; dict values are flattened recursively; other scalars are
stringified and treated as strings. -/
def flatten_images_field : JVal → List String
  | .null => []
  | .bool b => if !truthy (.bool b) then [] else flattenStr (pyStr (.bool b))
  | .num n => if !truthy (.num n) then [] else flattenStr (pyStr (.num n))
  | .str s => if !truthy (.str s) then [] else flattenStr s
  | .list l => if !truthy (.list l) then [] else (flattenListElems [] [] l).2
  | .dict l => if !truthy (.dict l) then [] else (flattenDictEntries [] [] l).2

/-- The `for k, v in value.items()` loop of the dict branch: flatten each
value recursively and deduplicate across values. -/
def flattenDictEntries : List String → List String → List (String × JVal) →
    List String × List String
  | seen, out, [] => (seen, out)
  | seen, out, (_, v) :: vs =>
    let urls := flatten_images_field v
    let so := addUrlsDict seen out urls
    flattenDictEntries so.1 so.2 vs

end

/-- `guess_image_keys`, first phase: keys whose lowercase form contains one of
the image-related substrings. -/
def guessBaseKeys (fs : List (String × JVal)) : List String :=
  (fs.map Prod.fst).filter (fun k =>
    containsSubStr k.toLower "image" || containsSubStr k.toLower "img" ||
    containsSubStr k.toLower "picture" || containsSubStr k.toLower "foto" ||
    containsSubStr k.toLower "bild")

/-- `guess_image_keys`, second phase: append the explicit common key names
present in the item and not collected yet. -/
def guessExtraKeys (fs : List (String × JVal)) : List String → List String → List String
  | keys, [] => keys
  | keys, k :: ks =>
    if jhas fs k && !keys.contains k then guessExtraKeys fs (keys ++ [k]) ks
    else guessExtraKeys fs keys ks

/-- `guess_image_keys(item)`. -/
def guess_image_keys (fs : List (String × JVal)) : List String :=
  guessExtraKeys fs (guessBaseKeys fs)
    ["images", "image", "image_urls", "image_url", "imageUrls", "bilder", "pictures"]

/-- `clean_text`: `None` becomes `""`; non-strings are stringified; then NBSP
replacement, strip and whitespace collapsing. -/
def clean_text : JVal → String
  | .null => ""
  | .str s => cleanTextStr s
  | v => cleanTextStr (pyStr v)

/-- Separators accepted between thousands groups in the price pattern
(`[ \.,]`). -/
def isThouSep (c : Char) : Bool := c = ' ' || c = '.' || c = ','

/-- Separators accepted before the 1-2 digit fractional part (`[,\.\s]`). -/
def isFracSep (c : Char) : Bool := c = ',' || c = '.' || isPySpace c

/-- Greedy match of `(?:[ \.,]\d{3})*`: consume separator-plus-three-digit
groups as long as possible. -/
def matchThousands : List Char → List Char × List Char
  | c :: a :: b :: d :: rest =>
    if isThouSep c && isDigitC a && isDigitC b && isDigitC d then
      let tr := matchThousands rest
      (c :: a :: b :: d :: tr.1, tr.2)
    else ([], c :: a :: b :: d :: rest)
  | l => ([], l)

/-- Greedy match of `(?:[,\.\s]\d{1,2})?`: a separator followed by two digits
when available, else one, else nothing. -/
def matchFrac : List Char → List Char
  | c :: a :: b :: _ =>
    if isFracSep c && isDigitC a then (if isDigitC b then [c, a, b] else [c, a]) else []
  | [c, a] => if isFracSep c && isDigitC a then [c, a] else []
  | _ => []

/-- Match of the price pattern `\d{1,3}(?:[ \.,]\d{3})*(?:[,\.\s]\d{1,2})?` at
the head of the list (which must start with a digit): up to three digits, then
thousands groups, then an optional fractional part. -/
def matchPriceAt (l : List Char) : Option (List Char) :=
  let d := l.takeWhile isDigitC
  if d.isEmpty then none
  else
    let d1 := d.take 3
    let tr := matchThousands (l.drop d1.length)
    some (d1 ++ tr.1 ++ matchFrac tr.2)

/-- `re.search` for the price pattern: the leftmost match starts at the first
digit of the string. -/
def priceSearchL : List Char → Option (List Char)
  | [] => none
  | c :: t => if isDigitC c then matchPriceAt (c :: t) else priceSearchL t

/-- `re.search(r'(\d{1,3}(?:[ \.,]\d{3})*(?:[,\.\s]\d{1,2})?)', s)` as the
matched text. -/
def priceSearch (s : String) : Option String := (priceSearchL s.toList).map List.asString

/-- Python `float()` on the strings `normalize_price` builds: surrounding
whitespace is stripped, then the string must be a run of digits with at most
one dot (`123`, `123.`, `123.45`); commas, inner whitespace or a second dot
fail.  Signs, exponents and `inf`/`nan` never occur in these strings and are
not modelled.  The exact value is returned as a numerator/denominator pair
with the denominator a power of ten. -/
def pyFloat (s : String) : Option (Nat × Nat) :=
  let l := stripBy isPySpace s.toList
  let d1 := l.takeWhile isDigitC
  let r1 := l.dropWhile isDigitC
  if r1.isEmpty then (if d1.isEmpty then none else some (digitsToNat d1, 1))
  else if r1.head? = some '.' then
    let r2 := r1.tail
    let d2 := r2.takeWhile isDigitC
    if (r2.dropWhile isDigitC).isEmpty && (!d1.isEmpty || !d2.isEmpty) then
      some (digitsToNat d1 * 10 ^ d2.length + digitsToNat d2, 10 ^ d2.length)
    else none
  else none

/-- `f"{x:.2f}"` on the nonnegative value `q.1 / q.2`: round to two
fractional digits (the number of cents is `⌊q.1 * 100 / q.2 + 1 / 2⌋`,
computed in natural arithmetic) and print.  The claims only exercise values
exactly representable with at most two decimal digits, where the binary
double and this exact model agree; ties at a third digit are not exercised. -/
def formatTwo (q : Nat × Nat) : String :=
  let cents := (q.1 * 200 + q.2) / (2 * q.2)
  let fr := cents % 100
  toString (cents / 100) ++ "." ++ (if fr < 10 then "0" ++ toString fr else toString fr)

/-- `normalize_price(p)`: `(raw matched text, normalized value)`.  Falsy input
gives `(None, None)`; no match gives `(stripped text, None)`; otherwise the
matched run is cleaned of spaces, the decimal separator is chosen (comma
becomes dot unless the run has dots but no commas), and the result is parsed
and formatted, `None` on parse failure. -/
def normalize_price (p : JVal) : Option String × Option String :=
  if !truthy p then (none, none)
  else
    let s := replNbspStr (pyStripStr (pyStr p))
    match priceSearch s with
    | none => (some s, none)
    | some raw =>
      let cleaned := (raw.toList.filter (fun c => !(c = ' ' || c.val = 0x202f))).asString
      let nc := cleaned.toList.count ','
      let nd := cleaned.toList.count '.'
      let numeric :=
        if 0 < nc && nd = 0 then
          (cleaned.toList.map (fun c => if c = ',' then '.' else c)).asString
        else if 0 < nd && nc = 0 then cleaned
        else (cleaned.toList.map (fun c => if c = ',' then '.' else c)).asString
      match pyFloat numeric with
      | some q => (some raw, some (formatTwo q))
      | none => (some raw, none)

/-- The price argument of the cleaning loop:
`it.get("price") or it.get("regular_price") or ""`. -/
def priceArg (fs : List (String × JVal)) : JVal :=
  pyOr (jget fs "price") (pyOr (jget fs "regular_price") (.str ""))

/-- Python's `x or ""` on an optional string (`raw_price or ""`,
`numeric or ""`). -/
def pyOrEmpty (o : Option String) : String :=
  match o with
  | some t => if t = "" then "" else t
  | none => ""

/-- The dedup key of a record:
`it.get("unique_id") or it.get("product_id") or it.get("product_url")`. -/
def uidOf (fs : List (String × JVal)) : JVal :=
  pyOr (jget fs "unique_id") (pyOr (jget fs "product_id") (jget fs "product_url"))

/-- The `for preferred in (...)`/`for k in guess_image_keys(it)` loops: the
first key present in the item whose flattened value is non-empty. -/
def tryImageKeys (fs : List (String × JVal)) : List String → List String
  | [] => []
  | k :: ks =>
    if jhas fs k then
      let urls := flatten_images_field (jget fs k)
      if !urls.isEmpty then urls else tryImageKeys fs ks
    else tryImageKeys fs ks

/-- The serialized form the cdn/http scan inspects: the string itself for a
string value, `json.dumps` for a list or dict, nothing for other values. -/
def cdnSval : JVal → Option String
  | .str s => some s
  | .list l => some (jsonDumps (.list l))
  | .dict l => some (jsonDumps (.dict l))
  | _ => none

/-- The last-resort image scan of the cleaning loop: the first field whose
serialized text mentions `cdn` or `http` and which flattens to URLs. -/
def cdnScan : List (String × JVal) → List String
  | [] => []
  | (_, v) :: rest =>
    match cdnSval v with
    | some sval =>
      if containsSubStr sval.toLower "cdn" || containsSubStr sval.toLower "http" then
        let urls := flatten_images_field v
        if !urls.isEmpty then urls else cdnScan rest
      else cdnScan rest
    | none => cdnScan rest

/-- The full image cascade of the cleaning loop: exact preferred keys, then
guessed keys, then the cdn/http scan. -/
def imageUrls (fs : List (String × JVal)) : List String :=
  let s1 := tryImageKeys fs ["images", "image", "image_urls", "image_url", "imageUrls"]
  if !s1.isEmpty then s1
  else
    let s2 := tryImageKeys fs (guess_image_keys fs)
    if !s2.isEmpty then s2 else cdnScan fs

/-- One iteration of the cleaning loop past the dedup test: the `out` record,
as an association list in insertion order. -/
def processItem (fs : List (String × JVal)) : List (String × String) :=
  let pr := normalize_price (priceArg fs)
  let urls := imageUrls fs
  [("product_url", clean_text (jget fs "product_url")),
   ("product_name", clean_text (jget fs "product_name")),
   ("price", pyOrEmpty pr.1),
   ("regular_price", pyOrEmpty pr.2),
   ("currency", clean_text (pyOr (jget fs "currency") (.str ""))),
   ("images", if !urls.isEmpty then String.intercalate ";" urls else ""),
   ("product_description", clean_text (pyOr (jget fs "product_description") (.str ""))),
   ("unique_id", clean_text (pyOr (jget fs "unique_id") (.str ""))),
   ("product_id", clean_text (pyOr (jget fs "product_id") (.str ""))),
   ("ingredients", clean_text (pyOr (jget fs "ingredients") (.str ""))),
   ("details", clean_text (pyOr (jget fs "details") (.str "")))]

/-- State of the cleaning loop of `main`. -/
structure PResult where
  cleaned : List (List (String × String))
  seen : List JVal
  removed : Nat
  withImages : Nat

/-- One iteration of the cleaning loop: skip non-records, drop records whose
truthy dedup key was seen, emit the cleaned record otherwise. -/
def stepItem (st : PResult) (it : JVal) : PResult :=
  match it with
  | .dict fs =>
    let uid := uidOf fs
    if truthy uid then
      if jmem uid st.seen then { st with removed := st.removed + 1 }
      else
        { st with
            cleaned := st.cleaned ++ [processItem fs],
            seen := uid :: st.seen,
            withImages := st.withImages + (if !(imageUrls fs).isEmpty then 1 else 0) }
    else
      { st with
          cleaned := st.cleaned ++ [processItem fs],
          withImages := st.withImages + (if !(imageUrls fs).isEmpty then 1 else 0) }
  | _ => st

/-- The cleaning loop of `main` over the loaded items. -/
def runClean (items : List JVal) : PResult :=
  items.foldl stepItem ⟨[], [], 0, 0⟩

/-- The fixed CSV column order of `main`. -/
def fieldnames : List String :=
  ["unique_id", "product_id", "product_name", "product_url", "price", "regular_price",
   "currency", "product_description", "ingredients", "details", "images"]

/-- One CSV data row: `{k: r.get(k, "") for k in fieldnames}` in column
order. -/
def csvRow (r : List (String × String)) : List String :=
  fieldnames.map (fun k => (List.lookup k r).getD "")

/-- Failure modes of `load_json`: the reported `FileNotFoundError`, or the
uncaught `TypeError` of `list()` on a non-iterable top level. -/
inductive LoadErr where
  | fileNotFound : LoadErr
  | typeError : LoadErr

/-- `load_json(path)`: error when the file is absent; a dict is wrapped into a
one-element list; a list is taken as is; `list()` of a string is its
characters; `list()` of other scalars raises. -/
def load_json : Option JVal → Except LoadErr (List JVal)
  | none => .error .fileNotFound
  | some (.dict fs) => .ok [.dict fs]
  | some (.list l) => .ok l
  | some (.str s) => .ok (s.toList.map (fun c => JVal.str (String.singleton c)))
  | some _ => .error .typeError

/-- Observable outcome of one `main()` run of the post-processor: whether the
missing-file error was reported, whether an exception escaped, and the
contents of the two output files when they were written. -/
structure MainOutcome where
  reportedError : Bool
  crashed : Bool
  jsonOut : Option (List (List (String × String)))
  csvOut : Option (List (List String))

/-- `main()` of `clean_and_flatten_output.py` as a function of the (parsed)
input file, `none` when `output.json` does not exist: a missing file is
reported and nothing is written; otherwise both artifacts are written after
the whole cleaning loop has run. -/
def mainModel (file : Option JVal) : MainOutcome :=
  match load_json file with
  | .error .fileNotFound =>
    { reportedError := true, crashed := false, jsonOut := none, csvOut := none }
  | .error .typeError =>
    { reportedError := false, crashed := true, jsonOut := none, csvOut := none }
  | .ok items =>
    let r := runClean items
    { reportedError := false, crashed := false, jsonOut := some r.cleaned,
      csvOut := some (fieldnames :: r.cleaned.map csvRow) }

/-- Specification-side companion of the cleaning loop: the field lists of the
records it emits, in order (non-records skipped, keyed duplicates dropped). -/
def keptGo (seen : List JVal) : List JVal → List (List (String × JVal))
  | [] => []
  | it :: rest =>
    match it with
    | .dict fs =>
      if truthy (uidOf fs) then
        if jmem (uidOf fs) seen then keptGo seen rest
        else fs :: keptGo (uidOf fs :: seen) rest
      else fs :: keptGo seen rest
    | _ => keptGo seen rest

/-- Specification-side companion of the `removed` counter. -/
def removedGo (seen : List JVal) : List JVal → Nat
  | [] => 0
  | it :: rest =>
    match it with
    | .dict fs =>
      if truthy (uidOf fs) then
        if jmem (uidOf fs) seen then 1 + removedGo seen rest
        else removedGo (uidOf fs :: seen) rest
      else removedGo seen rest
    | _ => removedGo seen rest

/-- Record test on a JSON value (`isinstance(it, dict)`). -/
def isDictB : JVal → Bool
  | .dict _ => true
  | _ => false

/-- A well-formed record whose dedup key is falsy. -/
def isKeylessDict : JVal → Bool
  | .dict fs => !truthy (uidOf fs)
  | _ => false

/-- Order-preserving first-occurrence deduplication that also drops empty
strings, the reference form of the list/string deduplication loops. -/
def dedupRun (seen : List String) : List String → List String
  | [] => []
  | u :: us =>
    if u != "" && !seen.contains u then u :: dedupRun (u :: seen) us
    else dedupRun seen us

/-- `dedupRun` from an empty seen set. -/
def dedupFirst (l : List String) : List String := dedupRun [] l

/-- Order-preserving first-occurrence deduplication without the emptiness
test, the reference form of the dict deduplication loop. -/
def dedupRunAll (seen : List String) : List String → List String
  | [] => []
  | u :: us =>
    if !seen.contains u then u :: dedupRunAll (u :: seen) us else dedupRunAll seen us

/-- `dedupRunAll` from an empty seen set. -/
def dedupFirstAll (l : List String) : List String := dedupRunAll [] l

/-- URLs contributed by one element of a list value, in traversal order
(stripped, before deduplication). -/
def listElemUrls (v : JVal) : List String :=
  if !truthy v then []
  else
    match v with
    | .list _ => (extract_urls_from_string (jsonDumps v)).map pyStripStr
    | .dict _ => (extract_urls_from_string (jsonDumps v)).map pyStripStr
    | _ => (extract_urls_from_string (pyStr v)).map pyStripStr

/-- The stripped comma/semicolon-delimited pieces of a string that literally
start with `http`, the candidates of the string-branch fallback. -/
def httpParts (s : String) : List String :=
  ((splitSepParts s).map stripPartStr).filter (fun p => p.startsWith "http")

/-- Mutable state of `CleverSpider`: the configured maximum, the seen-URL set,
the emitted-item counter and the last product URL stored by `parse_product`. -/
structure SpiderState where
  max_items : Nat
  seen : List String
  item_count : Nat
  current_url : Option String

/-- Initial spider state for a configured `max_items`. -/
def initSpider (m : Nat) : SpiderState :=
  { max_items := m, seen := [], item_count := 0, current_url := none }

/-- A fetched product page, represented by the results of the selector queries
`parse_product` issues (the selector engine is the external framework). -/
structure ProductPage where
  url : String
  h1XpathTexts : List String
  h1CssTexts : List String
  priceXpathTexts : List String
  priceCssTexts : List String
  descAfterH1 : List String
  descAnyP : List String
  descBeforeClever : List String
  pidTexts : List String
  ingredientTexts : List String
  detailTexts : List String
  ogImages : List String
  ctImages : List String

/-- A fetched listing page, represented by the results of the selector queries
`parse_listing` issues: product card hrefs, the next-anchor candidate and the
`?page=` hrefs. -/
structure ListingPage where
  url : String
  productHrefs : List String
  nextAnchor : Option String
  pageHrefs : List String

/-- The record the spider emits for one product page. -/
structure ProductItem where
  product_url : String
  product_name : Option String
  price : Option String
  currency : Option String
  regular_price : Option String
  product_description : Option String
  product_id : Option String
  unique_id : Option String
  ingredients : Option String
  details : Option String
  images : List String
  image : Option String

/-- `_extract_first`: the first selector text that is non-empty after
stripping, cleaned; `None` when all are blank. -/
def extractFirst : List String → Option String
  | [] => none
  | s :: rest =>
    let t := pyStripStr s
    if t != "" then some (spCleanStr t) else extractFirst rest

/-- Python's `a or b` pattern `if not x: x = y` on optional strings from
`_extract_first` (an empty string counts as absent). -/
def pyOrS (a b : Option String) : Option String :=
  match a with
  | some s => if s = "" then b else some s
  | none => b

/-- Characters of the class `[\d\.,]` in the spider's inline price pattern. -/
def numClsC (c : Char) : Bool := isDigitC c || c = '.' || c = ','

/-- `re.search(r'([\d\.,]+)', s)`: the leftmost maximal run of digits, dots
and commas. -/
def numRunL : List Char → Option (List Char)
  | [] => none
  | c :: t => if numClsC c then some (c :: t.takeWhile numClsC) else numRunL t

/-- The spider's inline numeric-price match on a string. -/
def numRun (s : String) : Option String := (numRunL s.toList).map List.asString

/-- Drop up to and through the first occurrence of `pat`; `none` when `pat`
does not occur. -/
def afterSub (pat : List Char) : List Char → Option (List Char)
  | [] => if pat.isEmpty then some [] else none
  | c :: t =>
    if pat.isPrefixOf (c :: t) then some ((c :: t).drop pat.length) else afterSub pat t

/-- Model of `urllib.parse.urlparse(u).path` for the URL shapes the spider
meets: drop `scheme://netloc` when present, then cut at `?` or `#` (parameter
segments with `;` do not occur). -/
def urlPath (u : String) : String :=
  let l := u.toList
  let rest :=
    match afterSub [':', '/', '/'] l with
    | some r => r.dropWhile (fun c => c ≠ '/')
    | none => l
  (rest.takeWhile (fun c => c ≠ '?' && c ≠ '#')).asString

/-- `re.search(r'(\d+)(?:/)?$', path)`: the trailing run of digits, one
trailing slash allowed. -/
def trailingDigits (p : String) : Option String :=
  let l := p.toList
  let l1 := if l.getLast? = some '/' then l.dropLast else l
  let t := (l1.reverse.takeWhile isDigitC).reverse
  if t.isEmpty then none else some t.asString

/-- The `scheme://netloc` part of a URL, empty when there is no scheme. -/
def urlOrigin (u : String) : String :=
  let l := u.toList
  match afterSub [':', '/', '/'] l with
  | some r => (l.take (l.length - r.length)).asString ++ (r.takeWhile (fun c => c ≠ '/')).asString
  | none => ""

/-- The scheme of a URL (the text before the first colon). -/
def urlScheme (u : String) : String := (u.toList.takeWhile (fun c => c ≠ ':')).asString

/-- Model of `urllib.parse.urljoin(base, url)` for the reference shapes this
spider encounters: absolute URLs, scheme-relative `//…`, root-relative `/…`
and plain relative references (dot-segment normalization is not modelled,
none occurs on this site). -/
def urljoin (base url : String) : String :=
  if url = "" then base
  else if containsSubStr url "://" then url
  else if url.startsWith "//" then urlScheme base ++ ":" ++ url
  else if url.startsWith "/" then urlOrigin base ++ url
  else ((base.toList.reverse.dropWhile (fun c => c ≠ '/')).reverse).asString ++ url

/-- `_abs(response, href)`: `None` for a falsy href, else `urljoin`. -/
def absHref (respUrl href : String) : Option String :=
  if href = "" then none else some (urljoin respUrl href)

/-- `re.search(r'[?&]page=(\d+)', s)` as a number: the first `?page=`/`&page=`
followed by at least one digit, greedily. -/
def pageNumL : List Char → Option Nat
  | [] => none
  | c :: t =>
    if (c = '?' || c = '&') && (['p', 'a', 'g', 'e', '='].isPrefixOf t) &&
        (match t.drop 5 with | d :: _ => isDigitC d | [] => false) then
      some (digitsToNat ((t.drop 5).takeWhile isDigitC))
    else pageNumL t

/-- Page number of a URL or href under the `?page=N` scheme. -/
def pageNum (s : String) : Option Nat := pageNumL s.toList

/-- Insertion step of a lexicographic insertion sort on strings. -/
def insertSorted (s : String) : List String → List String
  | [] => [s]
  | t :: ts => if s < t then s :: t :: ts else t :: insertSorted s ts

/-- Lexicographic sort on strings, modelling Python's `sorted`. -/
def sortStrs (l : List String) : List String := l.foldr insertSorted []

/-- First-occurrence deduplication of strings, modelling `set()` contents. -/
def dedupSeenStr (seen : List String) : List String → List String
  | [] => []
  | s :: ts =>
    if seen.contains s then dedupSeenStr seen ts else s :: dedupSeenStr (s :: seen) ts

/-- `sorted(set(l))`. -/
def sortedSet (l : List String) : List String := sortStrs (dedupSeenStr [] l)

/-- Characters of the class `[A-Za-z0-9\-]` of the product-id pattern. -/
def isPidChar (c : Char) : Bool :=
  isDigitC c || ('a' ≤ c && c ≤ 'z') || ('A' ≤ c && c ≤ 'Z') || c = '-'

/-- `re.search(r'Produkt ID:\s*([A-Za-z0-9\-]+)', s)`: after the literal
label and optional whitespace, the run of id characters. -/
def pidSearchL : List Char → Option (List Char)
  | [] => none
  | c :: t =>
    if "Produkt ID:".toList.isPrefixOf (c :: t) then
      let r := ((c :: t).drop 11).dropWhile isPySpace
      let tok := r.takeWhile isPidChar
      if tok.isEmpty then pidSearchL t else some tok
    else pidSearchL t

/-- The extracted product id of a label text. -/
def pidSearch (s : String) : Option String := (pidSearchL s.toList).map List.asString

/-- The image-absolutization loop of `parse_product`: skip falsy entries,
absolutize, keep first occurrences. -/
def absImagesGo (ru : String) (acc : List String) : List String → List String
  | [] => acc
  | u :: us =>
    if u = "" then absImagesGo ru acc us
    else
      let ua := urljoin ru u
      if acc.contains ua then absImagesGo ru acc us else absImagesGo ru (acc ++ [ua]) us

/-- `parse_product`: store the current URL, emit nothing once the counter has
reached the maximum, otherwise build the item from the page's query results,
clean its string fields, bump the counter and emit it. -/
def parse_product (st : SpiderState) (resp : ProductPage) : SpiderState × Option ProductItem :=
  let st1 := { st with current_url := some resp.url }
  if st1.max_items ≤ st1.item_count then (st1, none)
  else
    let name := pyOrS (extractFirst resp.h1XpathTexts) (extractFirst resp.h1CssTexts)
    let price := pyOrS (extractFirst resp.priceXpathTexts) (extractFirst resp.priceCssTexts)
    let currency :=
      if (match price with | some p => containsSubStr p "€" | none => false)
      then some "€" else none
    let regular_price :=
      match price with
      | some p =>
        (numRun p).map (fun (raw : String) =>
          (raw.toList.map (fun c => if c = ',' then '.' else c)).asString)
      | none => none
    let desc := pyOrS (pyOrS (extractFirst resp.descAfterH1) (extractFirst resp.descAnyP))
      (extractFirst resp.descBeforeClever)
    let product_id :=
      match extractFirst resp.pidTexts with
      | some pidText => pidSearch pidText
      | none => none
    let unique_id := trailingDigits (urlPath resp.url)
    let abs_imgs := absImagesGo resp.url [] (resp.ogImages ++ resp.ctImages)
    let item : ProductItem := {
      product_url := spCleanStr resp.url,
      product_name := name.map spCleanStr,
      price := price.map spCleanStr,
      currency := currency.map spCleanStr,
      regular_price := regular_price.map spCleanStr,
      product_description := desc.map spCleanStr,
      product_id := product_id.map spCleanStr,
      unique_id := unique_id.map spCleanStr,
      ingredients := (extractFirst resp.ingredientTexts).map spCleanStr,
      details := (extractFirst resp.detailTexts).map spCleanStr,
      images := abs_imgs,
      image := abs_imgs.head?.map spCleanStr }
    ({ st1 with item_count := st1.item_count + 1 }, some item)

/-- A follow instruction the spider hands to the crawling framework. -/
inductive SpiderReq where
  | product : String → SpiderReq
  | listing : String → SpiderReq

/-- The product-card loop of `parse_listing`: absolutize each href and follow
it when not yet seen. -/
def followProducts (ru : String) : SpiderState × List SpiderReq → List String →
    SpiderState × List SpiderReq
  | acc, [] => acc
  | (st, rs), href :: hs =>
    match absHref ru href with
    | some url =>
      if !st.seen.contains url then
        followProducts ru ({ st with seen := url :: st.seen }, rs ++ [.product url]) hs
      else followProducts ru (st, rs) hs
    | none => followProducts ru (st, rs) hs

/-- The `?page=` fallback of `parse_listing`: among the sorted distinct
`?page=` hrefs, the first whose page number is exactly one past the current
page (current defaults to 1). -/
def pageFallback (resp : ListingPage) : Option String :=
  let cur := (pageNum resp.url).getD 1
  (sortedSet resp.pageHrefs).find? (fun p => pageNum p == some (cur + 1))

/-- The pagination candidate of `parse_listing`: the next-anchor candidate
when truthy, else the `?page=` fallback. -/
def nextHref (resp : ListingPage) : Option String :=
  match resp.nextAnchor with
  | some c => if c != "" then some c else pageFallback resp
  | none => pageFallback resp

/-- `parse_listing`: follow unseen product links; once the counter has
reached the maximum, stop; otherwise follow the single pagination candidate
when one is found. -/
def parse_listing (st : SpiderState) (resp : ListingPage) : SpiderState × List SpiderReq :=
  let sr := followProducts resp.url (st, []) resp.productHrefs
  if sr.1.max_items ≤ sr.1.item_count then sr
  else
    match nextHref resp with
    | some h => if h != "" then (sr.1, sr.2 ++ [.listing h]) else sr
    | none => sr

/-- One page handed to the spider by the crawling framework. -/
inductive PageEvent where
  | product : ProductPage → PageEvent
  | listing : ListingPage → PageEvent

/-- A crawl as the framework drives it: run the matching handler on each
fetched page in order, collecting the emitted items. -/
def runSpider (st : SpiderState) : List PageEvent → SpiderState × List ProductItem
  | [] => (st, [])
  | ev :: evs =>
    match ev with
    | .product p =>
      let r := parse_product st p
      let rest := runSpider r.1 evs
      (rest.1, (match r.2 with | some i => [i] | none => []) ++ rest.2)
    | .listing l =>
      let r := parse_listing st l
      runSpider r.1 evs

/-!  Lemmas.  First: `jeq` is exactly propositional equality, so the
Python-`==` based membership tests coincide with list membership. -/

mutual

theorem jeq_iff : (a b : JVal) → (jeq a b = true ↔ a = b)
  | .null, b => by cases b <;> simp [jeq]
  | .bool x, b => by cases b <;> simp [jeq]
  | .num x, b => by cases b <;> simp [jeq]
  | .str s, b => by cases b <;> simp [jeq]
  | .list l, b => by
    cases b with
    | list l2 => simpa [jeq] using jeqL_iff l l2
    | _ => simp [jeq]
  | .dict l, b => by
    cases b with
    | dict l2 => simpa [jeq] using jeqD_iff l l2
    | _ => simp [jeq]

theorem jeqL_iff : (a b : List JVal) → (jeqL a b = true ↔ a = b)
  | [], b => by cases b <;> simp [jeqL]
  | a :: t, [] => by simp [jeqL]
  | a :: t, b :: u => by simp [jeqL, jeq_iff a b, jeqL_iff t u]

theorem jeqD_iff : (a b : List (String × JVal)) → (jeqD a b = true ↔ a = b)
  | [], b => by cases b <;> simp [jeqD]
  | (k, a) :: t, [] => by simp [jeqD]
  | (k, a) :: t, (k2, b) :: u => by
    simp [jeqD, jeq_iff a b, jeqD_iff t u, and_assoc]

end

theorem jmem_iff (x : JVal) : ∀ l : List JVal, (jmem x l = true ↔ x ∈ l)
  | [] => by simp [jmem]
  | y :: t => by simp [jmem, jeq_iff, jmem_iff x t]

/-!  Price lemmas: the regex match, `float()` failure on a second dot, and the
behaviour of `normalize_price` when no numeric substring matches. -/

theorem toList_asString (l : List Char) : (l.asString).toList = l := rfl

theorem count_stripBy (p : Char → Bool) (c : Char) (hc : p c = false) (l : List Char) :
    (stripBy p l).count c = l.count c := by
  have h1 : ∀ m : List Char, (m.dropWhile p).count c = m.count c := by
    intro m
    conv_rhs => rw [← List.takeWhile_append_dropWhile (p := p) (l := m)]
    rw [List.count_append]
    have h0 : (m.takeWhile p).count c = 0 := by
      rw [List.count_eq_zero]
      intro hmem
      have hpc := List.mem_takeWhile_imp hmem
      rw [hc] at hpc
      exact Bool.noConfusion hpc
    omega
  unfold stripBy
  rw [List.count_reverse, h1, List.count_reverse, h1]

theorem count_split_digits (l : List Char) :
    l.count '.' = (l.takeWhile isDigitC).count '.' + (l.dropWhile isDigitC).count '.' := by
  conv_lhs => rw [← List.takeWhile_append_dropWhile (p := isDigitC) (l := l)]
  rw [List.count_append]

theorem count_takeWhile_digits (l : List Char) : (l.takeWhile isDigitC).count '.' = 0 := by
  rw [List.count_eq_zero]
  intro hm
  exact absurd (List.mem_takeWhile_imp hm) (by decide)

theorem pyFloat_two_dots (s : String) (h : 2 ≤ s.toList.count '.') : pyFloat s = none := by
  have hstrip : (stripBy isPySpace s.toList).count '.' = s.toList.count '.' :=
    count_stripBy isPySpace '.' (by decide) s.toList
  simp only [pyFloat]
  set l := stripBy isPySpace s.toList with hl
  have h2 : 2 ≤ l.count '.' := by rw [hl, hstrip]; exact h
  have hdrop : 2 ≤ (l.dropWhile isDigitC).count '.' := by
    rw [count_split_digits l, count_takeWhile_digits l] at h2
    simpa using h2
  cases hc : l.dropWhile isDigitC with
  | nil =>
    rw [hc] at hdrop
    simp at hdrop
  | cons a t =>
    rw [hc] at hdrop
    have hne : ((a :: t).isEmpty : Bool) = false := by simp
    rw [if_neg (by simp)]
    by_cases ha : a = '.'
    · subst ha
      rw [if_pos (by simp)]
      have ht : 1 ≤ t.count '.' := by
        rw [List.count_cons_self] at hdrop
        omega
      have ht2 : 1 ≤ (t.dropWhile isDigitC).count '.' := by
        rw [count_split_digits t, count_takeWhile_digits t] at ht
        simpa using ht
      have hne2 : ((t.dropWhile isDigitC).isEmpty : Bool) = false := by
        cases hc2 : t.dropWhile isDigitC with
        | nil => rw [hc2] at ht2; simp at ht2
        | cons a2 t2 => simp
      simp [hne2]
    · rw [if_neg (by simp [ha])]

theorem count_dot_mapComma (l : List Char) :
    (l.map (fun c => if c = ',' then '.' else c)).count '.' = l.count '.' + l.count ',' := by
  induction l with
  | nil => simp
  | cons c t ih =>
    by_cases hc : c = ','
    · subst hc
      simp [List.count_cons, ih]
      omega
    · by_cases hd : c = '.'
      · subst hd
        simp [List.count_cons, ih, hc]
        omega
      · simp [List.count_cons, ih, hc, hd]

theorem priceSearchL_none (l : List Char) (h : ∀ c ∈ l, isDigitC c = false) :
    priceSearchL l = none := by
  induction l with
  | nil => rfl
  | cons c t ih =>
    simp only [priceSearchL, h c (List.mem_cons_self c t)]
    exact ih (fun c hc => h c (List.mem_cons_of_mem _ hc))

theorem mem_stripBy {p : Char → Bool} {a : Char} {l : List Char}
    (h : a ∈ stripBy p l) : a ∈ l := by
  unfold stripBy at h
  rw [List.mem_reverse] at h
  have h2 := (List.dropWhile_sublist (l := (l.dropWhile p).reverse) (p := p)).subset h
  rw [List.mem_reverse] at h2
  exact (List.dropWhile_sublist (l := l) (p := p)).subset h2

theorem no_digit_preproc (s : String) (h : ∀ c ∈ s.toList, isDigitC c = false) :
    ∀ c ∈ (replNbspStr (pyStripStr s)).toList, isDigitC c = false := by
  intro c hc
  have hc2 : c ∈ (stripBy isPySpace s.toList).map
      (fun c => if c.val = 0xa0 then ' ' else c) := hc
  rw [List.mem_map] at hc2
  obtain ⟨c2, hmem, hfc⟩ := hc2
  by_cases hnb : c2.val = 0xa0
  · rw [if_pos hnb] at hfc
    rw [← hfc]
    decide
  · rw [if_neg hnb] at hfc
    rw [← hfc]
    exact h c2 (mem_stripBy hmem)

theorem normalize_price_no_digits (s : String) (hs : s ≠ "")
    (h : ∀ c ∈ s.toList, isDigitC c = false) :
    normalize_price (.str s) = (some (replNbspStr (pyStripStr s)), none) := by
  have hsearch : priceSearch (replNbspStr (pyStripStr s)) = none := by
    unfold priceSearch
    rw [priceSearchL_none _ (no_digit_preproc s h)]
    rfl
  have ht : truthy (.str s) = true := by simp [truthy, hs]
  simp only [normalize_price, ht, Bool.not_true, pyStr]
  rw [if_neg (by simp)]
  rw [hsearch]

theorem normalize_price_both_seps (s raw : String)
    (hm : priceSearch (replNbspStr (pyStripStr s)) = some raw)
    (hc : ',' ∈ raw.toList) (hd : '.' ∈ raw.toList) :
    normalize_price (.str s) = (some raw, none) := by
  have hs : s ≠ "" := by
    rintro rfl
    rw [show priceSearch (replNbspStr (pyStripStr "")) = none from by decide] at hm
    exact Option.noConfusion hm
  have ht : truthy (.str s) = true := by simp [truthy, hs]
  simp only [normalize_price, ht, Bool.not_true, pyStr]
  rw [if_neg (by simp)]
  rw [hm]
  dsimp only []
  set cleaned := (raw.toList.filter (fun c => !(c = ' ' || c.val = 0x202f))).asString with hcl
  have hcm : ',' ∈ cleaned.toList := by
    rw [hcl, toList_asString, List.mem_filter]
    exact ⟨hc, by decide⟩
  have hdm : '.' ∈ cleaned.toList := by
    rw [hcl, toList_asString, List.mem_filter]
    exact ⟨hd, by decide⟩
  have hnc : cleaned.toList.count ',' ≠ 0 := by
    rw [Ne, List.count_eq_zero]
    simpa using hcm
  have hnd : cleaned.toList.count '.' ≠ 0 := by
    rw [Ne, List.count_eq_zero]
    simpa using hdm
  rw [if_neg (by simp; exact fun _ => hnd)]
  rw [if_neg (by simp; exact fun _ => hnc)]
  have hfl : pyFloat ((cleaned.toList.map (fun c => if c = ',' then '.' else c)).asString)
      = none := by
    apply pyFloat_two_dots
    rw [toList_asString, count_dot_mapComma]
    omega
  rw [hfl]

theorem pyOrEmpty_some (t : String) : pyOrEmpty (some t) = t := by
  by_cases h : t = "" <;> simp [pyOrEmpty, h]

theorem lookup_processItem_price (fs : List (String × JVal)) :
    List.lookup "price" (processItem fs) =
      some (pyOrEmpty (normalize_price (priceArg fs)).1) := rfl

theorem lookup_processItem_regular (fs : List (String × JVal)) :
    List.lookup "regular_price" (processItem fs) =
      some (pyOrEmpty (normalize_price (priceArg fs)).2) := rfl

theorem priceArg_of_price (fs : List (String × JVal)) (s : String)
    (h1 : List.lookup "price" fs = some (.str s)) (h2 : s ≠ "") :
    priceArg fs = .str s := by
  simp [priceArg, jget, h1, pyOr, truthy, h2]

/-!  The cleaning loop in terms of the kept records: `runClean` emits exactly
the cleaned forms of `keptGo` and counts exactly `removedGo`. -/

theorem foldl_stepItem_spec :
    ∀ (items : List JVal) (cl : List (List (String × String))) (seen : List JVal) (rm wi : Nat),
    items.foldl stepItem ⟨cl, seen, rm, wi⟩ =
      ⟨cl ++ (keptGo seen items).map processItem,
       (((keptGo seen items).map uidOf).filter truthy).reverse ++ seen,
       rm + removedGo seen items,
       wi + (keptGo seen items).countP (fun fs => !(imageUrls fs).isEmpty)⟩ := by
  intro items
  induction items with
  | nil => intro cl seen rm wi; simp [keptGo, removedGo]
  | cons it rest ih =>
    intro cl seen rm wi
    cases it with
    | dict fs =>
      by_cases htr : truthy (uidOf fs) = true
      · by_cases hjm : jmem (uidOf fs) seen = true
        · rw [List.foldl_cons]
          show List.foldl stepItem (stepItem ⟨cl, seen, rm, wi⟩ (.dict fs)) rest = _
          rw [show stepItem ⟨cl, seen, rm, wi⟩ (.dict fs) =
              (⟨cl, seen, rm + 1, wi⟩ : PResult) by simp [stepItem, htr, hjm]]
          rw [ih]
          simp only [keptGo, removedGo, htr, hjm, if_true]
          refine congrArg (fun r => PResult.mk _ _ r _) ?_
          omega
        · rw [List.foldl_cons]
          show List.foldl stepItem (stepItem ⟨cl, seen, rm, wi⟩ (.dict fs)) rest = _
          rw [show stepItem ⟨cl, seen, rm, wi⟩ (.dict fs) =
              (⟨cl ++ [processItem fs], uidOf fs :: seen, rm,
                wi + (if !(imageUrls fs).isEmpty then 1 else 0)⟩ : PResult) by
            simp [stepItem, htr, hjm]]
          rw [ih]
          simp only [keptGo, removedGo, htr, hjm, if_true, if_false, List.map_cons,
            List.filter_cons, List.countP_cons, List.reverse_cons, List.append_assoc,
            List.cons_append, List.nil_append, List.map_append, List.singleton_append]
          refine PResult.mk.injEq _ _ _ _ _ _ _ _ ▸ ?_
          simp [htr, List.append_assoc]
          by_cases hi : imageUrls fs = [] <;>
            simp [hi, List.countP_cons, List.isEmpty_iff] <;> omega
      · rw [List.foldl_cons]
        show List.foldl stepItem (stepItem ⟨cl, seen, rm, wi⟩ (.dict fs)) rest = _
        rw [show stepItem ⟨cl, seen, rm, wi⟩ (.dict fs) =
            (⟨cl ++ [processItem fs], seen, rm,
              wi + (if !(imageUrls fs).isEmpty then 1 else 0)⟩ : PResult) by
          simp [stepItem, htr]]
        rw [ih]
        simp only [keptGo, removedGo, htr, if_false, List.map_cons, List.filter_cons,
          List.countP_cons, List.append_assoc, List.cons_append, List.singleton_append]
        simp [htr]
        by_cases hi : imageUrls fs = [] <;>
          simp [hi, List.countP_cons, List.isEmpty_iff] <;> omega
    | null =>
      rw [List.foldl_cons]
      show List.foldl stepItem (stepItem ⟨cl, seen, rm, wi⟩ .null) rest = _
      rw [show stepItem ⟨cl, seen, rm, wi⟩ .null = (⟨cl, seen, rm, wi⟩ : PResult) from rfl]
      rw [ih]
      simp [keptGo, removedGo]
    | bool b =>
      rw [List.foldl_cons]
      show List.foldl stepItem (stepItem ⟨cl, seen, rm, wi⟩ (.bool b)) rest = _
      rw [show stepItem ⟨cl, seen, rm, wi⟩ (.bool b) = (⟨cl, seen, rm, wi⟩ : PResult) from rfl]
      rw [ih]
      simp [keptGo, removedGo]
    | num n =>
      rw [List.foldl_cons]
      show List.foldl stepItem (stepItem ⟨cl, seen, rm, wi⟩ (.num n)) rest = _
      rw [show stepItem ⟨cl, seen, rm, wi⟩ (.num n) = (⟨cl, seen, rm, wi⟩ : PResult) from rfl]
      rw [ih]
      simp [keptGo, removedGo]
    | str s =>
      rw [List.foldl_cons]
      show List.foldl stepItem (stepItem ⟨cl, seen, rm, wi⟩ (.str s)) rest = _
      rw [show stepItem ⟨cl, seen, rm, wi⟩ (.str s) = (⟨cl, seen, rm, wi⟩ : PResult) from rfl]
      rw [ih]
      simp [keptGo, removedGo]
    | list l =>
      rw [List.foldl_cons]
      show List.foldl stepItem (stepItem ⟨cl, seen, rm, wi⟩ (.list l)) rest = _
      rw [show stepItem ⟨cl, seen, rm, wi⟩ (.list l) = (⟨cl, seen, rm, wi⟩ : PResult) from rfl]
      rw [ih]
      simp [keptGo, removedGo]

theorem keptGo_length_removedGo (items : List JVal) :
    ∀ seen, (keptGo seen items).length + removedGo seen items = items.countP isDictB := by
  induction items with
  | nil => intro seen; simp [keptGo, removedGo]
  | cons it rest ih =>
    intro seen
    cases it with
    | dict fs =>
      by_cases htr : truthy (uidOf fs) = true
      · by_cases hjm : jmem (uidOf fs) seen = true
        · simp only [keptGo, removedGo, htr, hjm, if_true, List.countP_cons, isDictB]
          have := ih seen
          omega
        · simp only [keptGo, removedGo, htr, hjm, if_true, if_false, Bool.false_eq_true,
            List.countP_cons, isDictB, List.length_cons]
          have := ih (uidOf fs :: seen)
          omega
      · simp only [keptGo, removedGo, htr, if_false, Bool.false_eq_true, List.countP_cons,
          isDictB, List.length_cons]
        have := ih seen
        simp
        omega
    | null => simpa [keptGo, removedGo, List.countP_cons, isDictB] using ih seen
    | bool b => simpa [keptGo, removedGo, List.countP_cons, isDictB] using ih seen
    | num n => simpa [keptGo, removedGo, List.countP_cons, isDictB] using ih seen
    | str s => simpa [keptGo, removedGo, List.countP_cons, isDictB] using ih seen
    | list l => simpa [keptGo, removedGo, List.countP_cons, isDictB] using ih seen

theorem keptGo_keyless_count (items : List JVal) :
    ∀ seen, (keptGo seen items).countP (fun fs => !truthy (uidOf fs)) =
      items.countP isKeylessDict := by
  induction items with
  | nil => intro seen; simp [keptGo]
  | cons it rest ih =>
    intro seen
    cases it with
    | dict fs =>
      by_cases htr : truthy (uidOf fs) = true
      · by_cases hjm : jmem (uidOf fs) seen = true
        · simp only [keptGo, htr, hjm, if_true, List.countP_cons, isKeylessDict]
          rw [ih seen]
          simp [htr]
        · simp only [keptGo, htr, hjm, if_true, if_false, Bool.false_eq_true,
            List.countP_cons, isKeylessDict]
          rw [ih (uidOf fs :: seen)]
      · simp only [keptGo, htr, if_false, Bool.false_eq_true, List.countP_cons, isKeylessDict]
        rw [ih seen]
    | null => simpa [keptGo, List.countP_cons, isKeylessDict] using ih seen
    | bool b => simpa [keptGo, List.countP_cons, isKeylessDict] using ih seen
    | num n => simpa [keptGo, List.countP_cons, isKeylessDict] using ih seen
    | str s => simpa [keptGo, List.countP_cons, isKeylessDict] using ih seen
    | list l => simpa [keptGo, List.countP_cons, isKeylessDict] using ih seen

theorem keptGo_count_zero (items : List JVal) :
    ∀ seen k, truthy k = true → jmem k seen = true →
    (keptGo seen items).countP (fun fs => jeq (uidOf fs) k) = 0 := by
  induction items with
  | nil => intro seen k _ _; simp [keptGo]
  | cons it rest ih =>
    intro seen k htk hks
    cases it with
    | dict fs =>
      by_cases htr : truthy (uidOf fs) = true
      · by_cases hjm : jmem (uidOf fs) seen = true
        · simp only [keptGo, htr, hjm, if_true]
          exact ih seen k htk hks
        · simp only [keptGo, htr, hjm, if_true, if_false, Bool.false_eq_true, List.countP_cons]
          have hne : jeq (uidOf fs) k = false := by
            rw [Bool.eq_false_iff, Ne, jeq_iff]
            rintro rfl
            rw [hks] at hjm
            exact hjm rfl
          rw [ih (uidOf fs :: seen) k htk (by simp [jmem, hks])]
          simp [hne]
      · simp only [keptGo, htr, if_false, Bool.false_eq_true, List.countP_cons]
        have hne : jeq (uidOf fs) k = false := by
          rw [Bool.eq_false_iff, Ne, jeq_iff]
          rintro rfl
          rw [htk] at htr
          exact htr rfl
        rw [ih seen k htk hks]
        simp [hne]
    | null => simpa [keptGo] using ih seen k htk hks
    | bool b => simpa [keptGo] using ih seen k htk hks
    | num n => simpa [keptGo] using ih seen k htk hks
    | str s => simpa [keptGo] using ih seen k htk hks
    | list l => simpa [keptGo] using ih seen k htk hks

theorem keptGo_count_one (items : List JVal) :
    ∀ seen k, truthy k = true → jmem k seen = false →
    (∃ it ∈ items, ∃ fs, it = JVal.dict fs ∧ uidOf fs = k) →
    (keptGo seen items).countP (fun fs => jeq (uidOf fs) k) = 1 := by
  induction items with
  | nil =>
    intro seen k _ _ hex
    obtain ⟨it, hit, _⟩ := hex
    exact absurd hit (List.not_mem_nil it)
  | cons it rest ih =>
    intro seen k htk hks hex
    cases it with
    | dict fs =>
      by_cases htr : truthy (uidOf fs) = true
      · by_cases hjm : jmem (uidOf fs) seen = true
        · simp only [keptGo, htr, hjm, if_true]
          apply ih seen k htk hks
          obtain ⟨it2, hit2, fs2, heq2, huid2⟩ := hex
          rcases List.mem_cons.mp hit2 with h | h
          · exfalso
            rw [h] at heq2
            injection heq2 with hfs
            rw [← hfs] at huid2
            rw [huid2] at hjm
            rw [hks] at hjm
            exact Bool.noConfusion hjm
          · exact ⟨it2, h, fs2, heq2, huid2⟩
        · simp only [keptGo, htr, hjm, if_true, if_false, Bool.false_eq_true, List.countP_cons]
          by_cases heq : uidOf fs = k
          · rw [keptGo_count_zero rest (uidOf fs :: seen) k htk
              (by simp [jmem, heq, jeq_iff])]
            simp [jeq_iff, heq]
          · have hne : jeq (uidOf fs) k = false := by
              rw [Bool.eq_false_iff, Ne, jeq_iff]
              exact heq
            have hmem2 : jmem k (uidOf fs :: seen) = false := by
              simp only [jmem, Bool.or_eq_false_iff]
              refine ⟨?_, hks⟩
              rw [Bool.eq_false_iff, Ne, jeq_iff]
              intro hh
              exact heq hh.symm
            rw [ih (uidOf fs :: seen) k htk hmem2 ?ex2]
            · simp [hne]
            case ex2 =>
              obtain ⟨it2, hit2, fs2, heq2, huid2⟩ := hex
              rcases List.mem_cons.mp hit2 with h | h
              · exfalso
                rw [h] at heq2
                injection heq2 with hfs
                rw [← hfs] at huid2
                exact heq huid2
              · exact ⟨it2, h, fs2, heq2, huid2⟩
      · simp only [keptGo, htr, if_false, Bool.false_eq_true, List.countP_cons]
        have hne : jeq (uidOf fs) k = false := by
          rw [Bool.eq_false_iff, Ne, jeq_iff]
          rintro rfl
          rw [htk] at htr
          exact htr rfl
        rw [ih seen k htk hks ?side]
        · simp [hne]
        case side =>
          obtain ⟨it2, hit2, fs2, heq2, huid2⟩ := hex
          rcases List.mem_cons.mp hit2 with h | h
          · exfalso
            rw [h] at heq2
            injection heq2 with hfs
            rw [← hfs] at huid2
            rw [huid2] at htr
            rw [htk] at htr
            exact htr rfl
          · exact ⟨it2, h, fs2, heq2, huid2⟩
    | null =>
      simp only [keptGo]
      apply ih seen k htk hks
      obtain ⟨it2, hit2, fs2, heq2, huid2⟩ := hex
      rcases List.mem_cons.mp hit2 with h | h
      · rw [h] at heq2; exact absurd heq2 (by simp)
      · exact ⟨it2, h, fs2, heq2, huid2⟩
    | bool b =>
      simp only [keptGo]
      apply ih seen k htk hks
      obtain ⟨it2, hit2, fs2, heq2, huid2⟩ := hex
      rcases List.mem_cons.mp hit2 with h | h
      · rw [h] at heq2; exact absurd heq2 (by simp)
      · exact ⟨it2, h, fs2, heq2, huid2⟩
    | num n =>
      simp only [keptGo]
      apply ih seen k htk hks
      obtain ⟨it2, hit2, fs2, heq2, huid2⟩ := hex
      rcases List.mem_cons.mp hit2 with h | h
      · rw [h] at heq2; exact absurd heq2 (by simp)
      · exact ⟨it2, h, fs2, heq2, huid2⟩
    | str s =>
      simp only [keptGo]
      apply ih seen k htk hks
      obtain ⟨it2, hit2, fs2, heq2, huid2⟩ := hex
      rcases List.mem_cons.mp hit2 with h | h
      · rw [h] at heq2; exact absurd heq2 (by simp)
      · exact ⟨it2, h, fs2, heq2, huid2⟩
    | list l =>
      simp only [keptGo]
      apply ih seen k htk hks
      obtain ⟨it2, hit2, fs2, heq2, huid2⟩ := hex
      rcases List.mem_cons.mp hit2 with h | h
      · rw [h] at heq2; exact absurd heq2 (by simp)
      · exact ⟨it2, h, fs2, heq2, huid2⟩

/-!  Deduplication lemmas: each URL-collecting loop equals `dedupRun` or
`dedupRunAll` over the URLs in traversal order, and those never produce
duplicates. -/

theorem addUrlsStrip_spec :
    ∀ (us seen out : List String),
    addUrlsStrip seen out us =
      ((dedupRun seen (us.map pyStripStr)).reverse ++ seen,
       out ++ dedupRun seen (us.map pyStripStr)) := by
  intro us
  induction us with
  | nil => intro seen out; simp [addUrlsStrip, dedupRun]
  | cons u t ih =>
    intro seen out
    simp only [addUrlsStrip, List.map_cons, dedupRun]
    by_cases hc : (pyStripStr u != "" && !seen.contains (pyStripStr u)) = true
    · rw [if_pos hc, if_pos hc, ih]
      simp [List.append_assoc]
    · rw [if_neg hc, if_neg hc, ih]

theorem addUrlsDict_spec :
    ∀ (us seen out : List String),
    addUrlsDict seen out us =
      ((dedupRunAll seen us).reverse ++ seen, out ++ dedupRunAll seen us) := by
  intro us
  induction us with
  | nil => intro seen out; simp [addUrlsDict, dedupRunAll]
  | cons u t ih =>
    intro seen out
    simp only [addUrlsDict, dedupRunAll]
    by_cases hc : (!seen.contains u) = true
    · rw [if_pos hc, if_pos hc, ih]
      simp [List.append_assoc]
    · rw [if_neg hc, if_neg hc, ih]

theorem addHttpParts_spec :
    ∀ (ps seen out : List String),
    addHttpParts seen out ps =
      ((dedupRunAll seen ((ps.map stripPartStr).filter
          (fun p => p.startsWith "http"))).reverse ++ seen,
       out ++ dedupRunAll seen ((ps.map stripPartStr).filter
          (fun p => p.startsWith "http"))) := by
  intro ps
  induction ps with
  | nil => intro seen out; simp [addHttpParts, dedupRunAll]
  | cons p t ih =>
    intro seen out
    simp only [addHttpParts, List.map_cons, List.filter_cons]
    by_cases hs : (stripPartStr p).startsWith "http" = true
    · rw [if_pos hs]
      simp only [dedupRunAll]
      by_cases hc : (!seen.contains (stripPartStr p)) = true
      · rw [if_pos (by simp [hs]; simpa using hc), if_pos hc, ih]
        simp [List.append_assoc]
      · rw [if_neg (by simp; intro _; simp at hc; exact hc), if_neg hc, ih]
    · rw [if_neg (by simp [hs]), if_neg (by simp [hs]), ih]

theorem dedupRun_append :
    ∀ (l1 l2 seen : List String),
    dedupRun seen (l1 ++ l2) =
      dedupRun seen l1 ++ dedupRun ((dedupRun seen l1).reverse ++ seen) l2 := by
  intro l1
  induction l1 with
  | nil => intro l2 seen; simp [dedupRun]
  | cons u t ih =>
    intro l2 seen
    simp only [List.cons_append, dedupRun]
    by_cases hc : (u != "" && !seen.contains u) = true
    · rw [if_pos hc, if_pos hc]
      simp only [List.append_eq]
      rw [ih]
      simp [List.append_assoc]
    · rw [if_neg hc, if_neg hc]
      simp only [List.append_eq]
      rw [ih]

theorem dedupRunAll_append :
    ∀ (l1 l2 seen : List String),
    dedupRunAll seen (l1 ++ l2) =
      dedupRunAll seen l1 ++ dedupRunAll ((dedupRunAll seen l1).reverse ++ seen) l2 := by
  intro l1
  induction l1 with
  | nil => intro l2 seen; simp [dedupRunAll]
  | cons u t ih =>
    intro l2 seen
    simp only [List.cons_append, dedupRunAll]
    by_cases hc : (!seen.contains u) = true
    · rw [if_pos hc, if_pos hc]
      simp only [List.append_eq]
      rw [ih]
      simp [List.append_assoc]
    · rw [if_neg hc, if_neg hc]
      simp only [List.append_eq]
      rw [ih]

theorem dedupRun_nodup :
    ∀ (l seen : List String),
    (dedupRun seen l).Nodup ∧ ∀ x ∈ dedupRun seen l, seen.contains x = false := by
  intro l
  induction l with
  | nil => intro seen; simp [dedupRun]
  | cons u t ih =>
    intro seen
    simp only [dedupRun]
    by_cases hc : (u != "" && !seen.contains u) = true
    · rw [if_pos hc]
      obtain ⟨hn, hs⟩ := ih (u :: seen)
      refine ⟨List.nodup_cons.mpr ⟨?_, hn⟩, ?_⟩
      · intro hmem
        have := hs u hmem
        simp at this
      · intro x hx
        rcases List.mem_cons.mp hx with h | h
        · subst h
          simp at hc
          simpa using hc.2
        · have := hs x h
          simp at this
          simpa using this.2
    · rw [if_neg hc]
      exact ih seen

theorem dedupRunAll_nodup :
    ∀ (l seen : List String),
    (dedupRunAll seen l).Nodup ∧ ∀ x ∈ dedupRunAll seen l, seen.contains x = false := by
  intro l
  induction l with
  | nil => intro seen; simp [dedupRunAll]
  | cons u t ih =>
    intro seen
    simp only [dedupRunAll]
    by_cases hc : (!seen.contains u) = true
    · rw [if_pos hc]
      obtain ⟨hn, hs⟩ := ih (u :: seen)
      refine ⟨List.nodup_cons.mpr ⟨?_, hn⟩, ?_⟩
      · intro hmem
        have := hs u hmem
        simp at this
      · intro x hx
        rcases List.mem_cons.mp hx with h | h
        · subst h
          simp at hc
          simpa using hc
        · have := hs x h
          simp at this
          simpa using this.2
    · rw [if_neg hc]
      exact ih seen


theorem listElemUrls_eq (v : JVal) (htr : truthy v = true) :
    (match v with
     | .list _ => extract_urls_from_string (jsonDumps v)
     | .dict _ => extract_urls_from_string (jsonDumps v)
     | _ => extract_urls_from_string (pyStr v)).map pyStripStr = listElemUrls v := by
  cases v <;> simp [listElemUrls, htr]

theorem flattenListElems_spec :
    ∀ (vs : List JVal) (seen out : List String),
    flattenListElems seen out vs =
      ((dedupRun seen ((vs.map listElemUrls).join)).reverse ++ seen,
       out ++ dedupRun seen ((vs.map listElemUrls).join)) := by
  intro vs
  induction vs with
  | nil => intro seen out; simp [flattenListElems, dedupRun]
  | cons v t ih =>
    intro seen out
    by_cases htr : truthy v = true
    · simp only [flattenListElems, htr, Bool.not_true, Bool.false_eq_true, if_false]
      rw [addUrlsStrip_spec]
      simp only []
      rw [ih, listElemUrls_eq v htr]
      simp only [List.map_cons, List.join_cons]
      rw [dedupRun_append]
      simp [List.append_assoc]
    · simp only [flattenListElems, htr, Bool.not_false]
      rw [if_pos (by simp [htr]), ih]
      have hnil : listElemUrls v = [] := by simp [listElemUrls, htr]
      simp [hnil]

theorem flattenDictEntries_spec :
    ∀ (l : List (String × JVal)) (seen out : List String),
    flattenDictEntries seen out l =
      ((dedupRunAll seen ((l.map (fun kv => flatten_images_field kv.2)).join)).reverse ++ seen,
       out ++ dedupRunAll seen ((l.map (fun kv => flatten_images_field kv.2)).join)) := by
  intro l
  induction l with
  | nil => intro seen out; simp [flattenDictEntries, dedupRunAll]
  | cons kv t ih =>
    intro seen out
    obtain ⟨k, v⟩ := kv
    simp only [flattenDictEntries]
    rw [addUrlsDict_spec]
    simp only []
    rw [ih]
    simp only [List.map_cons, List.join_cons]
    rw [dedupRunAll_append]
    simp [List.append_assoc]

theorem flattenStr_spec (s : String) :
    flattenStr s =
      (if (dedupFirst ((extract_urls_from_string s).map pyStripStr)).isEmpty then
         dedupFirstAll (httpParts s)
       else dedupFirst ((extract_urls_from_string s).map pyStripStr)) := by
  unfold flattenStr
  rw [addUrlsStrip_spec]
  simp only [List.append_nil, List.nil_append]
  by_cases he : (dedupRun [] ((extract_urls_from_string s).map pyStripStr)).isEmpty = true
  · rw [if_pos he]
    have hnil : dedupRun [] ((extract_urls_from_string s).map pyStripStr) = [] := by
      rwa [List.isEmpty_iff] at he
    rw [hnil]
    rw [addHttpParts_spec]
    simp only [List.reverse_nil, List.nil_append]
    rw [if_pos (by simp [dedupFirst, hnil])]
    rfl
  · rw [if_neg he]
    rw [if_neg (by simpa [dedupFirst] using he)]
    rfl

theorem flatten_list_eq (l : List JVal) :
    flatten_images_field (.list l) = dedupFirst ((l.map listElemUrls).join) := by
  cases l with
  | nil => simp [flatten_images_field, truthy, dedupFirst, dedupRun]
  | cons v t =>
    simp only [flatten_images_field, truthy]
    rw [if_neg (by simp)]
    rw [flattenListElems_spec]
    simp [dedupFirst]

theorem flatten_dict_eq (l : List (String × JVal)) :
    flatten_images_field (.dict l) =
      dedupFirstAll ((l.map (fun kv => flatten_images_field kv.2)).join) := by
  cases l with
  | nil => simp [flatten_images_field, truthy, dedupFirstAll, dedupRunAll]
  | cons kv t =>
    simp only [flatten_images_field, truthy]
    rw [if_neg (by simp)]
    rw [flattenDictEntries_spec]
    simp [dedupFirstAll]

theorem flatten_str_eq (s : String) : flatten_images_field (.str s) = flattenStr s := by
  by_cases h : s = ""
  · subst h
    decide
  · simp [flatten_images_field, truthy, h]

theorem flattenStr_nodup (s : String) : (flattenStr s).Nodup := by
  rw [flattenStr_spec]
  by_cases he : (dedupFirst ((extract_urls_from_string s).map pyStripStr)).isEmpty = true
  · rw [if_pos he]
    exact (dedupRunAll_nodup _ _).1
  · rw [if_neg he]
    exact (dedupRun_nodup _ _).1

theorem flatten_images_field_nodup (v : JVal) : (flatten_images_field v).Nodup := by
  cases v with
  | null => simp [flatten_images_field]
  | bool b =>
    simp only [flatten_images_field]
    split
    · simp
    · exact flattenStr_nodup _
  | num n =>
    simp only [flatten_images_field]
    split
    · simp
    · exact flattenStr_nodup _
  | str s =>
    simp only [flatten_images_field]
    split
    · simp
    · exact flattenStr_nodup _
  | list l =>
    simp only [flatten_images_field]
    split
    · simp
    · rw [flattenListElems_spec]
      simp only [List.nil_append]
      exact (dedupRun_nodup _ _).1
  | dict l =>
    simp only [flatten_images_field]
    split
    · simp
    · rw [flattenDictEntries_spec]
      simp only [List.nil_append]
      exact (dedupRunAll_nodup _ _).1

theorem lookup_processItem_isSome (fs : List (String × JVal)) (k : String)
    (hk : k ∈ fieldnames) : (List.lookup k (processItem fs)).isSome = true := by
  fin_cases hk <;> rfl

/-!  Spider lemmas: the handlers preserve the configured maximum, the product
handler respects the cap, and the listing handler's requests are product
requests except for the single pagination follow. -/

theorem parse_product_at_max (st : SpiderState) (resp : ProductPage)
    (h : st.max_items ≤ st.item_count) :
    (parse_product st resp).1.item_count = st.item_count ∧
    (parse_product st resp).2 = none := by
  simp [parse_product, h]

theorem parse_product_max_eq (st : SpiderState) (resp : ProductPage) :
    (parse_product st resp).1.max_items = st.max_items := by
  simp only [parse_product]
  split <;> rfl

theorem parse_product_under_max (st : SpiderState) (resp : ProductPage)
    (h : ¬ st.max_items ≤ st.item_count) :
    (parse_product st resp).1.item_count = st.item_count + 1 ∧
    (parse_product st resp).2.isSome = true := by
  simp [parse_product, h]

theorem followProducts_state (ru : String) :
    ∀ (hrefs : List String) (st : SpiderState) (rs : List SpiderReq),
    (followProducts ru (st, rs) hrefs).1.item_count = st.item_count ∧
    (followProducts ru (st, rs) hrefs).1.max_items = st.max_items := by
  intro hrefs
  induction hrefs with
  | nil => intro st rs; simp [followProducts]
  | cons href t ih =>
    intro st rs
    simp only [followProducts]
    cases habs : absHref ru href with
    | none => exact ih st rs
    | some url =>
      dsimp only
      by_cases hse : (!st.seen.contains url) = true
      · rw [if_pos hse]
        exact ih _ _
      · rw [if_neg hse]
        exact ih st rs

theorem followProducts_reqs (ru : String) :
    ∀ (hrefs : List String) (st : SpiderState) (rs : List SpiderReq) (h : String),
    SpiderReq.listing h ∈ (followProducts ru (st, rs) hrefs).2 →
    SpiderReq.listing h ∈ rs := by
  intro hrefs
  induction hrefs with
  | nil => intro st rs h hm; simpa [followProducts] using hm
  | cons href t ih =>
    intro st rs h hm
    simp only [followProducts] at hm
    cases habs : absHref ru href with
    | none =>
      rw [habs] at hm
      exact ih st rs h hm
    | some url =>
      rw [habs] at hm
      dsimp only at hm
      by_cases hse : (!st.seen.contains url) = true
      · rw [if_pos hse] at hm
        have := ih _ _ h hm
        rcases List.mem_append.mp this with h2 | h2
        · exact h2
        · simp at h2
      · rw [if_neg hse] at hm
        exact ih st rs h hm

theorem parse_listing_state (st : SpiderState) (resp : ListingPage) :
    (parse_listing st resp).1.item_count = st.item_count ∧
    (parse_listing st resp).1.max_items = st.max_items := by
  have hst := followProducts_state resp.url resp.productHrefs st []
  simp only [parse_listing]
  by_cases hcap : (followProducts resp.url (st, []) resp.productHrefs).1.max_items ≤
      (followProducts resp.url (st, []) resp.productHrefs).1.item_count
  · rw [if_pos hcap]
    exact hst
  · rw [if_neg hcap]
    cases hn : nextHref resp with
    | none => exact hst
    | some hh =>
      dsimp only
      by_cases hhe : (hh != "") = true
      · rw [if_pos hhe]
        exact hst
      · rw [if_neg hhe]
        exact hst

theorem parse_listing_no_listing_at_max (st : SpiderState) (resp : ListingPage)
    (hcap : st.max_items ≤ st.item_count) :
    ∀ h, SpiderReq.listing h ∉ (parse_listing st resp).2 := by
  intro h hmem
  have hst := followProducts_state resp.url resp.productHrefs st []
  simp only [parse_listing] at hmem
  rw [if_pos (by rw [hst.1, hst.2]; exact hcap)] at hmem
  have := followProducts_reqs resp.url resp.productHrefs st [] h hmem
  simp at this

theorem parse_listing_listing_mem (st : SpiderState) (resp : ListingPage) (h : String) :
    SpiderReq.listing h ∈ (parse_listing st resp).2 → nextHref resp = some h := by
  intro hmem
  simp only [parse_listing] at hmem
  by_cases hcap : (followProducts resp.url (st, []) resp.productHrefs).1.max_items ≤
      (followProducts resp.url (st, []) resp.productHrefs).1.item_count
  · rw [if_pos hcap] at hmem
    have := followProducts_reqs resp.url resp.productHrefs st [] h hmem
    simp at this
  · rw [if_neg hcap] at hmem
    cases hn : nextHref resp with
    | none =>
      rw [hn] at hmem
      have := followProducts_reqs resp.url resp.productHrefs st [] h hmem
      simp at this
    | some hh =>
      rw [hn] at hmem
      dsimp only at hmem
      by_cases hhe : (hh != "") = true
      · rw [if_pos hhe] at hmem
        rcases List.mem_append.mp hmem with h2 | h2
        · have := followProducts_reqs resp.url resp.productHrefs st [] h h2
          simp at this
        · simp at h2
          rw [h2]
      · rw [if_neg hhe] at hmem
        have := followProducts_reqs resp.url resp.productHrefs st [] h hmem
        simp at this

theorem mem_insertSorted (s x : String) :
    ∀ l : List String, x ∈ insertSorted s l → x = s ∨ x ∈ l := by
  intro l
  induction l with
  | nil => intro h; simpa [insertSorted] using h
  | cons t ts ih =>
    intro h
    simp only [insertSorted] at h
    by_cases hlt : s < t
    · rw [if_pos hlt] at h
      rcases List.mem_cons.mp h with h2 | h2
      · exact Or.inl h2
      · exact Or.inr h2
    · rw [if_neg hlt] at h
      rcases List.mem_cons.mp h with h2 | h2
      · exact Or.inr (by simp [h2])
      · rcases ih h2 with h3 | h3
        · exact Or.inl h3
        · exact Or.inr (List.mem_cons_of_mem _ h3)

theorem mem_sortStrs (x : String) : ∀ l : List String, x ∈ sortStrs l → x ∈ l := by
  intro l
  induction l with
  | nil => intro h; simpa [sortStrs] using h
  | cons t ts ih =>
    intro h
    simp only [sortStrs, List.foldr_cons] at h
    rcases mem_insertSorted t x _ h with h2 | h2
    · simp [h2]
    · exact List.mem_cons_of_mem _ (ih h2)

theorem mem_dedupSeenStr (x : String) :
    ∀ (l seen : List String), x ∈ dedupSeenStr seen l → x ∈ l := by
  intro l
  induction l with
  | nil => intro seen h; simpa [dedupSeenStr] using h
  | cons s ts ih =>
    intro seen h
    simp only [dedupSeenStr] at h
    by_cases hc : seen.contains s = true
    · rw [if_pos hc] at h
      exact List.mem_cons_of_mem _ (ih seen h)
    · rw [if_neg hc] at h
      rcases List.mem_cons.mp h with h2 | h2
      · simp [h2]
      · exact List.mem_cons_of_mem _ (ih _ h2)

theorem mem_sortedSet (x : String) (l : List String) (h : x ∈ sortedSet l) : x ∈ l :=
  mem_dedupSeenStr x l [] (mem_sortStrs x _ h)

theorem pageFallback_num (resp : ListingPage) (h : String)
    (hf : pageFallback resp = some h) :
    pageNum h = some ((pageNum resp.url).getD 1 + 1) := by
  unfold pageFallback at hf
  have := List.find?_some hf
  simpa using this

theorem pageFallback_none (resp : ListingPage)
    (hnone : ∀ p ∈ resp.pageHrefs, ¬ pageNum p = some ((pageNum resp.url).getD 1 + 1)) :
    pageFallback resp = none := by
  unfold pageFallback
  rw [List.find?_eq_none]
  intro p hp
  have hp2 : p ∈ resp.pageHrefs := mem_sortedSet p _ hp
  simp [hnone p hp2]

theorem runSpider_invariant :
    ∀ (evs : List PageEvent) (st : SpiderState), st.item_count ≤ st.max_items →
    (runSpider st evs).1.max_items = st.max_items ∧
    (runSpider st evs).1.item_count ≤ st.max_items ∧
    (runSpider st evs).2.length + st.item_count = (runSpider st evs).1.item_count := by
  intro evs
  induction evs with
  | nil => intro st hle; simpa [runSpider] using hle
  | cons ev t ih =>
    intro st hle
    cases ev with
    | product p =>
      simp only [runSpider]
      have hmax := parse_product_max_eq st p
      by_cases hcap : st.max_items ≤ st.item_count
      · have h1 := parse_product_at_max st p hcap
        have hle2 : (parse_product st p).1.item_count ≤ (parse_product st p).1.max_items := by
          rw [h1.1, hmax]
          exact hle
        obtain ⟨a1, a2, a3⟩ := ih (parse_product st p).1 hle2
        rw [h1.2]
        refine ⟨by rw [a1, hmax], by rw [hmax] at a2; exact a2, ?_⟩
        simp only [List.nil_append]
        omega
      · have h1 := parse_product_under_max st p hcap
        have hle2 : (parse_product st p).1.item_count ≤ (parse_product st p).1.max_items := by
          rw [h1.1, hmax]
          omega
        obtain ⟨a1, a2, a3⟩ := ih (parse_product st p).1 hle2
        obtain ⟨i, hi⟩ := Option.isSome_iff_exists.mp h1.2
        rw [hi]
        refine ⟨by rw [a1, hmax], by rw [hmax] at a2; exact a2, ?_⟩
        simp only [List.singleton_append, List.length_cons]
        rw [h1.1] at a3
        omega
    | listing lp =>
      simp only [runSpider]
      have h1 := parse_listing_state st lp
      have hle2 : (parse_listing st lp).1.item_count ≤ (parse_listing st lp).1.max_items := by
        rw [h1.1, h1.2]
        exact hle
      obtain ⟨a1, a2, a3⟩ := ih (parse_listing st lp).1 hle2
      refine ⟨by rw [a1, h1.2], by rw [h1.2] at a2; exact a2, ?_⟩
      omega

/-!  Claim theorems. -/

/-- C1, counterexample: on `"1.234,56"` (commas and dots both present in the
matched run) `normalize_price` does not produce the normalized value
`"1234.56"` — the comma-to-dot replacement yields `"1.234.56"`, which
`float()` rejects, so the normalized value is empty. -/
theorem claim_C1_counterexample :
    ¬ ((normalize_price (JVal.str "1.234,56")).2 = some "1234.56") := by decide

/-- C1, amended: for every price string whose matched numeric substring
contains both commas and dots, `normalize_price` keeps the raw matched text
and produces an empty normalized value (the comma-to-dot replacement leaves
at least two dots, so the float parse fails); in particular `"1.234,56"`
yields `(some "1.234,56", none)`, not `"1234.56"`. -/
theorem claim_C1 (s raw : String)
    (hm : priceSearch (replNbspStr (pyStripStr s)) = some raw)
    (hc : ',' ∈ raw.toList) (hd : '.' ∈ raw.toList) :
    normalize_price (.str s) = (some raw, none) :=
  normalize_price_both_seps s raw hm hc hd

/-- Witness for C1 at the concrete input `"1.234,56"`. -/
theorem claim_C1_witness :
    priceSearch (replNbspStr (pyStripStr "1.234,56")) = some "1.234,56" ∧
    ',' ∈ "1.234,56".toList ∧ '.' ∈ "1.234,56".toList ∧
    normalize_price (.str "1.234,56") = (some "1.234,56", none) :=
  ⟨by decide, by decide, by decide,
   claim_C1 "1.234,56" "1.234,56" (by decide) (by decide) (by decide)⟩

/-- C2, counterexample: on the record `{"price": "abc"}` (non-null price with
no digits) the cleaned item's price field is `"abc"`, not the empty string —
`normalize_price` returns the stripped input as the raw price when no numeric
substring matches. -/
theorem claim_C2_counterexample :
    ((runClean [JVal.dict [("price", JVal.str "abc")]]).cleaned.map
      (fun c => List.lookup "price" c)) = [some "abc"] ∧
    ¬ ((runClean [JVal.dict [("price", JVal.str "abc")]]).cleaned.map
      (fun c => List.lookup "price" c)) = [some ""] := by decide

/-- C2, amended: for every record whose price field is a non-empty string
containing no digits, the cleaned item's price field is the
whitespace-stripped, NBSP-normalized input string (empty only when the input
was all whitespace) and the regular_price field is the empty string. -/
theorem claim_C2 (fs : List (String × JVal)) (s : String)
    (h1 : List.lookup "price" fs = some (.str s)) (h2 : s ≠ "")
    (h3 : ∀ c ∈ s.toList, isDigitC c = false) :
    List.lookup "price" (processItem fs) = some (replNbspStr (pyStripStr s)) ∧
    List.lookup "regular_price" (processItem fs) = some "" := by
  have ha := priceArg_of_price fs s h1 h2
  have hn := normalize_price_no_digits s h2 h3
  constructor
  · rw [lookup_processItem_price, ha, hn]
    rw [pyOrEmpty_some]
  · rw [lookup_processItem_regular, ha, hn]
    rfl

/-- Witness for C2 at the concrete record `{"price": "abc"}`. -/
theorem claim_C2_witness :
    List.lookup "price" [("price", JVal.str "abc")] = some (JVal.str "abc") ∧
    "abc" ≠ "" ∧ (∀ c ∈ "abc".toList, isDigitC c = false) ∧
    (List.lookup "price" (processItem [("price", JVal.str "abc")]) =
      some (replNbspStr (pyStripStr "abc")) ∧
     List.lookup "regular_price" (processItem [("price", JVal.str "abc")]) = some "") :=
  ⟨rfl, by decide, by decide,
   claim_C2 [("price", JVal.str "abc")] "abc" rfl (by decide) (by decide)⟩

/-- C4: running the post-processor on the one-element input list
`[{"product_url": "http://x/p/55", "product_name": " Foo   Bar ",
"price": "€ 3,50", "images": "http://cdn/a.jpg, http://cdn/b.jpg"}]`
produces exactly one CleanedItem, with product_name `"Foo Bar"`, price
`"3,50"`, regular_price `"3.50"` and images
`"http://cdn/a.jpg;http://cdn/b.jpg"`. -/
theorem claim_C4 :
    (mainModel (some (.list [.dict [("product_url", .str "http://x/p/55"),
      ("product_name", .str " Foo   Bar "), ("price", .str "€ 3,50"),
      ("images", .str "http://cdn/a.jpg, http://cdn/b.jpg")]]))).jsonOut =
      some [[("product_url", "http://x/p/55"), ("product_name", "Foo Bar"),
        ("price", "3,50"), ("regular_price", "3.50"), ("currency", ""),
        ("images", "http://cdn/a.jpg;http://cdn/b.jpg"), ("product_description", ""),
        ("unique_id", ""), ("product_id", ""), ("ingredients", ""), ("details", "")]] := by
  decide

/-- C5: `flatten_images_field` never produces duplicates, and on every shape
it is the first-occurrence deduplication of the URLs in traversal order
(lists: the extracted URLs of each element in order; dicts: the recursively
flattened values in order; strings: the extracted URLs, falling back to the
`http`-prefixed delimited pieces); in particular the nested structure
`{"main": [a, a]}` flattens to `[a]` and joins to `a`. -/
theorem claim_C5 :
    (∀ v : JVal, (flatten_images_field v).Nodup) ∧
    (∀ l : List JVal, flatten_images_field (.list l) =
      dedupFirst ((l.map listElemUrls).join)) ∧
    (∀ l : List (String × JVal), flatten_images_field (.dict l) =
      dedupFirstAll ((l.map (fun kv => flatten_images_field kv.2)).join)) ∧
    (∀ s : String, flatten_images_field (.str s) =
      (if (dedupFirst ((extract_urls_from_string s).map pyStripStr)).isEmpty then
         dedupFirstAll (httpParts s)
       else dedupFirst ((extract_urls_from_string s).map pyStripStr))) ∧
    flatten_images_field (.dict [("main", .list [.str "https://cdn.example.com/a.jpg",
      .str "https://cdn.example.com/a.jpg"])]) = ["https://cdn.example.com/a.jpg"] ∧
    String.intercalate ";" (flatten_images_field (.dict [("main",
      .list [.str "https://cdn.example.com/a.jpg",
        .str "https://cdn.example.com/a.jpg"])])) = "https://cdn.example.com/a.jpg" :=
  ⟨flatten_images_field_nodup, flatten_list_eq, flatten_dict_eq,
   fun s => (flatten_str_eq s).trans (flattenStr_spec s), by decide, by decide⟩

/-- C7: when the input file `output.json` does not exist, the post-processor
reports the error and terminates without writing either output artifact. -/
theorem claim_C7 :
    mainModel none =
      { reportedError := true, crashed := false, jsonOut := none, csvOut := none } := rfl

/-- C3: for a run whose input is a list of well-formed records, the counts
satisfy `input_count = cleaned_count + removed_count` (equivalently
`input − cleaned == removed`), the output is exactly the cleaned form of the
kept records, and every non-empty dedup key of the input (the first truthy of
unique_id/product_id/product_url, compared by Python `==`) belongs to exactly
one kept record, hence to exactly one CleanedItem. -/
theorem claim_C3 (items : List JVal) (h : ∀ it ∈ items, isDictB it = true) :
    items.length = (runClean items).cleaned.length + (runClean items).removed ∧
    (runClean items).cleaned = (keptGo [] items).map processItem ∧
    (∀ k, truthy k = true →
      (∃ it ∈ items, ∃ fs, it = JVal.dict fs ∧ uidOf fs = k) →
      (keptGo [] items).countP (fun fs => jeq (uidOf fs) k) = 1) := by
  have heq := foldl_stepItem_spec items [] [] 0 0
  have hc : (runClean items).cleaned = (keptGo [] items).map processItem := by
    show (items.foldl stepItem ⟨[], [], 0, 0⟩).cleaned = _
    rw [heq]
    simp
  have hr : (runClean items).removed = removedGo [] items := by
    show (items.foldl stepItem ⟨[], [], 0, 0⟩).removed = _
    rw [heq]
    simp
  refine ⟨?_, hc, ?_⟩
  · rw [hc, hr, List.length_map]
    have hcount := keptGo_length_removedGo items []
    have hall : items.countP isDictB = items.length := by
      rw [List.countP_eq_length]
      intro a ha
      exact h a ha
    omega
  · intro k htk hex
    exact keptGo_count_one items [] k htk (by simp [jmem]) hex

/-- Witness for C3 on a three-record input with one duplicated unique_id. -/
theorem claim_C3_witness :
    (∀ it ∈ ([.dict [("unique_id", .str "A")], .dict [("unique_id", .str "A")],
        .dict [("product_id", .str "B")]] : List JVal), isDictB it = true) ∧
    (([.dict [("unique_id", .str "A")], .dict [("unique_id", .str "A")],
        .dict [("product_id", .str "B")]] : List JVal).length =
      (runClean [.dict [("unique_id", .str "A")], .dict [("unique_id", .str "A")],
        .dict [("product_id", .str "B")]]).cleaned.length +
      (runClean [.dict [("unique_id", .str "A")], .dict [("unique_id", .str "A")],
        .dict [("product_id", .str "B")]]).removed ∧
     (runClean [.dict [("unique_id", .str "A")], .dict [("unique_id", .str "A")],
        .dict [("product_id", .str "B")]]).cleaned =
      (keptGo [] [.dict [("unique_id", .str "A")], .dict [("unique_id", .str "A")],
        .dict [("product_id", .str "B")]]).map processItem ∧
     (∀ k, truthy k = true →
      (∃ it ∈ ([.dict [("unique_id", .str "A")], .dict [("unique_id", .str "A")],
          .dict [("product_id", .str "B")]] : List JVal),
        ∃ fs, it = JVal.dict fs ∧ uidOf fs = k) →
      (keptGo [] [.dict [("unique_id", .str "A")], .dict [("unique_id", .str "A")],
        .dict [("product_id", .str "B")]]).countP
        (fun fs => jeq (uidOf fs) k) = 1)) :=
  ⟨by decide,
   claim_C3 [.dict [("unique_id", .str "A")], .dict [("unique_id", .str "A")],
     .dict [("product_id", .str "B")]] (by decide)⟩

/-- C10: records whose dedup key is falsy are never deduplicated — the kept
records contain every keyless record of the input (so each produces its own
CleanedItem even when identical), and the removed counter accounts only for
dropped keyed records (`kept + removed = number of records`). -/
theorem claim_C10 (items : List JVal) :
    (runClean items).cleaned = (keptGo [] items).map processItem ∧
    (keptGo [] items).countP (fun fs => !truthy (uidOf fs)) = items.countP isKeylessDict ∧
    (keptGo [] items).length + (runClean items).removed = items.countP isDictB := by
  have heq := foldl_stepItem_spec items [] [] 0 0
  have hc : (runClean items).cleaned = (keptGo [] items).map processItem := by
    show (items.foldl stepItem ⟨[], [], 0, 0⟩).cleaned = _
    rw [heq]
    simp
  have hr : (runClean items).removed = removedGo [] items := by
    show (items.foldl stepItem ⟨[], [], 0, 0⟩).removed = _
    rw [heq]
    simp
  refine ⟨hc, keptGo_keyless_count items [], ?_⟩
  rw [hr]
  exact keptGo_length_removedGo items []

/-- C6: the CSV artifact has exactly one data row per cleaned JSON item, each
row is the fixed 11 columns looked up in the item with `""` for absent
values, and every cleaned item in fact carries all 11 fields, so each CSV
cell equals the JSON item's value for that column. -/
theorem claim_C6 (items : List JVal) (c : List (String × String))
    (hc : c ∈ (runClean items).cleaned) (k : String) (hk : k ∈ fieldnames) :
    ((runClean items).cleaned.map csvRow).length = (runClean items).cleaned.length ∧
    csvRow c = fieldnames.map (fun k2 => (List.lookup k2 c).getD "") ∧
    (List.lookup k c).isSome = true := by
  refine ⟨List.length_map _ _, rfl, ?_⟩
  have heq := foldl_stepItem_spec items [] [] 0 0
  have hcl : (runClean items).cleaned = (keptGo [] items).map processItem := by
    show (items.foldl stepItem ⟨[], [], 0, 0⟩).cleaned = _
    rw [heq]
    simp
  rw [hcl] at hc
  obtain ⟨fs, _, rfl⟩ := List.mem_map.mp hc
  exact lookup_processItem_isSome fs k hk

/-- Witness for C6 on the C4 input record and the `price` column. -/
theorem claim_C6_witness :
    ([("product_url", "http://x/p/55"), ("product_name", "Foo Bar"), ("price", "3,50"),
      ("regular_price", "3.50"), ("currency", ""),
      ("images", "http://cdn/a.jpg;http://cdn/b.jpg"), ("product_description", ""),
      ("unique_id", ""), ("product_id", ""), ("ingredients", ""), ("details", "")] ∈
      (runClean [.dict [("product_url", .str "http://x/p/55"),
        ("product_name", .str " Foo   Bar "), ("price", .str "€ 3,50"),
        ("images", .str "http://cdn/a.jpg, http://cdn/b.jpg")]]).cleaned) ∧
    "price" ∈ fieldnames ∧
    (((runClean [.dict [("product_url", .str "http://x/p/55"),
        ("product_name", .str " Foo   Bar "), ("price", .str "€ 3,50"),
        ("images", .str "http://cdn/a.jpg, http://cdn/b.jpg")]]).cleaned.map csvRow).length =
      (runClean [.dict [("product_url", .str "http://x/p/55"),
        ("product_name", .str " Foo   Bar "), ("price", .str "€ 3,50"),
        ("images", .str "http://cdn/a.jpg, http://cdn/b.jpg")]]).cleaned.length ∧
     csvRow [("product_url", "http://x/p/55"), ("product_name", "Foo Bar"),
       ("price", "3,50"), ("regular_price", "3.50"), ("currency", ""),
       ("images", "http://cdn/a.jpg;http://cdn/b.jpg"), ("product_description", ""),
       ("unique_id", ""), ("product_id", ""), ("ingredients", ""), ("details", "")] =
      fieldnames.map (fun k2 => (List.lookup k2
        [("product_url", "http://x/p/55"), ("product_name", "Foo Bar"), ("price", "3,50"),
         ("regular_price", "3.50"), ("currency", ""),
         ("images", "http://cdn/a.jpg;http://cdn/b.jpg"), ("product_description", ""),
         ("unique_id", ""), ("product_id", ""), ("ingredients", ""),
         ("details", "")]).getD "") ∧
     (List.lookup "price"
       [("product_url", "http://x/p/55"), ("product_name", "Foo Bar"), ("price", "3,50"),
        ("regular_price", "3.50"), ("currency", ""),
        ("images", "http://cdn/a.jpg;http://cdn/b.jpg"), ("product_description", ""),
        ("unique_id", ""), ("product_id", ""), ("ingredients", ""),
        ("details", "")]).isSome = true) :=
  ⟨by decide, by decide,
   claim_C6 [.dict [("product_url", .str "http://x/p/55"),
     ("product_name", .str " Foo   Bar "), ("price", .str "€ 3,50"),
     ("images", .str "http://cdn/a.jpg, http://cdn/b.jpg")]]
     [("product_url", "http://x/p/55"), ("product_name", "Foo Bar"), ("price", "3,50"),
      ("regular_price", "3.50"), ("currency", ""),
      ("images", "http://cdn/a.jpg;http://cdn/b.jpg"), ("product_description", ""),
      ("unique_id", ""), ("product_id", ""), ("ingredients", ""), ("details", "")]
     (by decide) "price" (by decide)⟩

/-- C8: once the emitted-item counter has reached the configured maximum, the
product handler emits nothing and leaves the counter unchanged, the listing
handler issues no pagination request, and consequently a crawl from a fresh
state never emits more than `max_items` items. -/
theorem claim_C8 :
    (∀ (st : SpiderState) (resp : ProductPage), st.max_items ≤ st.item_count →
      (parse_product st resp).2 = none ∧
      (parse_product st resp).1.item_count = st.item_count) ∧
    (∀ (st : SpiderState) (resp : ListingPage), st.max_items ≤ st.item_count →
      ∀ h, SpiderReq.listing h ∉ (parse_listing st resp).2) ∧
    (∀ (m : Nat) (evs : List PageEvent),
      (runSpider (initSpider m) evs).2.length ≤ m) := by
  refine ⟨fun st resp h =>
      ⟨(parse_product_at_max st resp h).2, (parse_product_at_max st resp h).1⟩,
    parse_listing_no_listing_at_max, fun m evs => ?_⟩
  obtain ⟨a1, a2, a3⟩ := runSpider_invariant evs (initSpider m) (by simp [initSpider])
  simp only [initSpider] at a2 a3 ⊢
  omega

/-- Witness for C8 with `max_items = 0`, a trivial product page and a trivial
listing page. -/
theorem claim_C8_witness :
    ((⟨0, [], 0, none⟩ : SpiderState).max_items ≤
      (⟨0, [], 0, none⟩ : SpiderState).item_count) ∧
    ((parse_product ⟨0, [], 0, none⟩
        ⟨"u", [], [], [], [], [], [], [], [], [], [], [], []⟩).2 = none ∧
     (parse_product ⟨0, [], 0, none⟩
        ⟨"u", [], [], [], [], [], [], [], [], [], [], [], []⟩).1.item_count =
      (⟨0, [], 0, none⟩ : SpiderState).item_count) ∧
    (SpiderReq.listing "x" ∉
      (parse_listing ⟨0, [], 0, none⟩ ⟨"l", [], none, []⟩).2) ∧
    ((runSpider (initSpider 0)
        [.product ⟨"u", [], [], [], [], [], [], [], [], [], [], [], []⟩]).2.length ≤ 0) :=
  ⟨by decide,
   claim_C8.1 _ _ (by decide),
   claim_C8.2.1 _ _ (by decide) "x",
   claim_C8.2.2 0 _⟩

/-- C9: on a listing page with no truthy "next" anchor candidate, any
pagination link the handler follows is a `?page=N` link whose page number is
exactly one past the current page (parsed from the response URL's `page`
parameter, defaulting to 1), and when no such link exists among the `?page=`
hrefs no pagination request is issued. -/
theorem claim_C9 (st : SpiderState) (resp : ListingPage)
    (hanchor : resp.nextAnchor = none ∨ resp.nextAnchor = some "") :
    (∀ h, SpiderReq.listing h ∈ (parse_listing st resp).2 →
      pageNum h = some ((pageNum resp.url).getD 1 + 1)) ∧
    ((∀ p ∈ resp.pageHrefs, ¬ pageNum p = some ((pageNum resp.url).getD 1 + 1)) →
      ∀ h, SpiderReq.listing h ∉ (parse_listing st resp).2) := by
  have hnext : nextHref resp = pageFallback resp := by
    rcases hanchor with h | h <;> simp [nextHref, h]
  constructor
  · intro h hmem
    have hsome := parse_listing_listing_mem st resp h hmem
    rw [hnext] at hsome
    exact pageFallback_num resp h hsome
  · intro hnone h hmem
    have hsome := parse_listing_listing_mem st resp h hmem
    rw [hnext, pageFallback_none resp hnone] at hsome
    exact Option.noConfusion hsome

/-- Witness for C9 on a listing page at `?page=1` with a `?page=2` href and
no next anchor. -/
theorem claim_C9_witness :
    ((⟨"https://site/produkte?page=1", [], none, ["/produkte?page=2"]⟩ :
        ListingPage).nextAnchor = none ∨
     (⟨"https://site/produkte?page=1", [], none, ["/produkte?page=2"]⟩ :
        ListingPage).nextAnchor = some "") ∧
    ((∀ h, SpiderReq.listing h ∈
        (parse_listing ⟨10, [], 0, none⟩
          ⟨"https://site/produkte?page=1", [], none, ["/produkte?page=2"]⟩).2 →
      pageNum h = some ((pageNum (⟨"https://site/produkte?page=1", [], none,
        ["/produkte?page=2"]⟩ : ListingPage).url).getD 1 + 1)) ∧
     ((∀ p ∈ (⟨"https://site/produkte?page=1", [], none,
          ["/produkte?page=2"]⟩ : ListingPage).pageHrefs,
        ¬ pageNum p = some ((pageNum (⟨"https://site/produkte?page=1", [], none,
          ["/produkte?page=2"]⟩ : ListingPage).url).getD 1 + 1)) →
      ∀ h, SpiderReq.listing h ∉
        (parse_listing ⟨10, [], 0, none⟩
          ⟨"https://site/produkte?page=1", [], none, ["/produkte?page=2"]⟩).2)) :=
  ⟨Or.inl rfl,
   claim_C9 ⟨10, [], 0, none⟩
     ⟨"https://site/produkte?page=1", [], none, ["/produkte?page=2"]⟩ (Or.inl rfl)⟩
